import Mathlib

/-!
MyJsUtils, the local state and cache toolkit.

A shallow embedding of `utils/cacheForTime.js`, `utils/memoizer.js`,
`utils/stateStore.js`, `utils/cloneObj.js` and `utils/checkObjState.js`, and
the properties checked against them.

Conventions of the embedding:

* JavaScript values are tree-shaped fragments: `JSVal` for the cache, the
  memoizer and the store, `Val` (with `NaN`, `Date` objects and the built-in
  prototypes) for the clone and the diff. Numbers are integers, and
  `Date.now()` is an explicit integer argument `now`.
* A function that can throw returns `Except JSError _`; a function whose
  JavaScript execution may not terminate (re-entrant dispatch, recursion into
  nested or cyclic data) takes a fuel argument and reports when it runs out.
* Mutable objects (`localStorage`, the `Map` of the memoizer, the store's
  closure variables) are passed and returned explicitly; where the identity of
  objects matters (cyclic and shared data), objects live in a heap and values
  refer to them by address.
-/

namespace MyJsUtils

/-! ## JavaScript values -/

/-- JavaScript values of the fragment the utilities are exercised on: `undefined`,
`null`, booleans, integer numbers, strings, arrays and plain objects (own
properties in insertion order). -/
inductive JSVal where
  | undefined
  | null
  | bool (b : Bool)
  | num (n : Int)
  | str (s : String)
  | arr (xs : List JSVal)
  | obj (props : List (String × JSVal))
  deriving Inhabited

/-- Exceptions that the modelled code can observe. -/
inductive JSError where
  | typeError
  | syntaxError
  | domException
  deriving DecidableEq, Inhabited

/-- The parts of the host platform that the utilities call and that are not
part of the repository: the JSON codec and the `ToNumber` coercion of strings
and objects. `parse s = none` stands for `JSON.parse(s)` throwing a
`SyntaxError`; `coerce v = none` stands for `NaN`. -/
structure Platform where
  stringify : JSVal → String
  parse : String → Option JSVal
  coerce : JSVal → Option Int

/-- `ToNumber(v)`, with `none` for `NaN`. Strings, arrays and objects are
coerced by the platform. -/
def toNumber (env : Platform) : JSVal → Option Int
  | .undefined => none
  | .null => some 0
  | .bool b => some (if b then 1 else 0)
  | .num n => some n
  | v => env.coerce v

/-- The comparison `a > v` for a number `a`: false when `v` coerces to `NaN`. -/
def jsGt (env : Platform) (a : Int) (v : JSVal) : Bool :=
  match toNumber env v with
  | some n => decide (a > n)
  | none => false

/-- The comparison `a < v` for a number `a`: false when `v` coerces to `NaN`. -/
def jsLt (env : Platform) (a : Int) (v : JSVal) : Bool :=
  match toNumber env v with
  | some n => decide (a < n)
  | none => false

/-- Own-property lookup in a property list. -/
def lookupProp (k : String) : List (String × JSVal) → Option JSVal
  | [] => none
  | (k', v) :: rest => if k' = k then some v else lookupProp k rest

/-- The property read `item[name]` for a name that no built-in prototype
defines (the cache reads only `expiry` and `value`): a `TypeError` on `null`
and `undefined`, the own property of an object, and `undefined` otherwise. -/
def getProp (item : JSVal) (name : String) : Except JSError JSVal :=
  match item with
  | .undefined => .error .typeError
  | .null => .error .typeError
  | .obj props => .ok ((lookupProp name props).getD .undefined)
  | _ => .ok .undefined

/-! ## The backing medium (`localStorage`) -/

/-- The state of `localStorage`: the stored items, and whether each of its
three methods currently throws (disabled storage, exceeded quota). -/
structure Medium where
  items : List (String × String)
  getItemThrows : Bool
  setItemThrows : Bool
  removeItemThrows : Bool

/-- Replace the value stored under `k`, or append a new item. -/
def putItem (k s : String) : List (String × String) → List (String × String)
  | [] => [(k, s)]
  | (k', s') :: rest => if k' = k then (k, s) :: rest else (k', s') :: putItem k s rest

/-- The string stored under `k`, if any. -/
def findItem (k : String) : List (String × String) → Option String
  | [] => none
  | (k', s) :: rest => if k' = k then some s else findItem k rest

/-- Drop every item stored under `k`. -/
def dropItem (k : String) : List (String × String) → List (String × String)
  | [] => []
  | (k', s) :: rest => if k' = k then dropItem k rest else (k', s) :: dropItem k rest

/-- `localStorage.getItem(key)`: the stored string or `null` (`none`). -/
def Medium.getItem (m : Medium) (key : String) : Except JSError (Option String) :=
  if m.getItemThrows then .error .domException else .ok (findItem key m.items)

/-- `localStorage.setItem(key, s)`. -/
def Medium.setItem (m : Medium) (key s : String) : Except JSError Medium :=
  if m.setItemThrows then .error .domException
  else .ok { m with items := putItem key s m.items }

/-- `localStorage.removeItem(key)`. -/
def Medium.removeItem (m : Medium) (key : String) : Except JSError Medium :=
  if m.removeItemThrows then .error .domException
  else .ok { m with items := dropItem key m.items }

/-- A medium that holds `items` and never throws. -/
def Medium.reliable (items : List (String × String)) : Medium :=
  { items := items, getItemThrows := false, setItemThrows := false,
    removeItemThrows := false }

/-- A medium holding `items` all of whose methods throw. -/
def Medium.failing (items : List (String × String)) : Medium :=
  { items := items, getItemThrows := true, setItemThrows := true, removeItemThrows := true }

/-! ## `utils/cacheForTime.js` -/

/-- The entry object `{ value, expiry }` built by `set`. -/
def cacheEntry (value : JSVal) (expiry : Int) : JSVal :=
  .obj [("value", value), ("expiry", .num expiry)]

/-- `cacheForTime.set(key, value, ttlMs)` executed at instant `now`. -/
def cacheForTime.set (env : Platform) (now : Int) (m : Medium) (key : String)
    (value : JSVal) (ttlMs : Int) : Except JSError Medium :=
  let item := cacheEntry value (now + ttlMs)
  m.setItem key (env.stringify item)

/-- The body of the `try` block of `cacheForTime.get`. -/
def cacheForTime.getTry (env : Platform) (now : Int) (m : Medium) (key : String)
    (itemStr : String) : Except JSError (JSVal × Medium) :=
  match env.parse itemStr with
  | none => .error .syntaxError
  | some item =>
    match getProp item "expiry" with
    | .error e => .error e
    | .ok expiry =>
      if jsGt env now expiry then
        match m.removeItem key with
        | .error e => .error e
        | .ok m' => .ok (.null, m')
      else
        match getProp item "value" with
        | .error e => .error e
        | .ok v => .ok (v, m)

/-- `cacheForTime.get(key)` executed at instant `now`: the returned value and
the medium afterwards, or the exception that reaches the caller. -/
def cacheForTime.get (env : Platform) (now : Int) (m : Medium) (key : String) :
    Except JSError (JSVal × Medium) :=
  match m.getItem key with
  | .error e => .error e
  | .ok none => .ok (.null, m)
  | .ok (some itemStr) =>
    if itemStr = "" then .ok (.null, m)
    else
      match cacheForTime.getTry env now m key itemStr with
      | .ok r => .ok r
      | .error _ => .ok (.null, m)

/-- `cacheForTime.remove(key)`. -/
def cacheForTime.remove (m : Medium) (key : String) : Except JSError Medium :=
  m.removeItem key

/-- The body of the `try` block of `cacheForTime.isValid`. -/
def cacheForTime.isValidTry (env : Platform) (now : Int) (itemStr : String) :
    Except JSError Bool :=
  match env.parse itemStr with
  | none => .error .syntaxError
  | some item =>
    match getProp item "expiry" with
    | .error e => .error e
    | .ok expiry => .ok (jsLt env now expiry)

/-- `cacheForTime.isValid(key)` executed at instant `now`. -/
def cacheForTime.isValid (env : Platform) (now : Int) (m : Medium) (key : String) :
    Except JSError Bool :=
  match m.getItem key with
  | .error e => .error e
  | .ok none => .ok false
  | .ok (some itemStr) =>
    if itemStr = "" then .ok false
    else
      match cacheForTime.isValidTry env now itemStr with
      | .ok b => .ok b
      | .error _ => .ok false

/-! ## A concrete platform

The JSON codec and the numeric coercion of ECMAScript on the modelled fragment:
number literals are decimal integers, and strings hold no surrogate code
points. It instantiates `Platform` in the concrete runs below. -/

namespace JSON


/-- A hexadecimal digit, in lower case. -/
def hexDigit (n : Nat) : Char :=
  if n < 10 then Char.ofNat (48 + n) else Char.ofNat (87 + n)

/-- The escape sequence of one character inside a string literal: the quote,
the backslash and the control characters are escaped. -/
def escapeChar (c : Char) : List Char :=
  if c = '"' then ['\\', '"']
  else if c = '\\' then ['\\', '\\']
  else if c = '\n' then ['\\', 'n']
  else if c = '\r' then ['\\', 'r']
  else if c = '\t' then ['\\', 't']
  else if c.toNat = 8 then ['\\', 'b']
  else if c.toNat = 12 then ['\\', 'f']
  else if c.toNat < 32 then ['\\', 'u', '0', '0', hexDigit (c.toNat / 16), hexDigit (c.toNat % 16)]
  else [c]

/-- Escape the characters of a string literal. -/
def escape : List Char → List Char
  | [] => []
  | c :: cs => escapeChar c ++ escape cs

/-- A string as a JSON string literal. -/
def quote (s : String) : List Char := '"' :: (escape s.toList ++ ['"'])

/-- An integer in decimal. -/
def renderInt (n : Int) : List Char :=
  match n with
  | .ofNat k => Nat.toDigits 10 k
  | .negSucc k => '-' :: Nat.toDigits 10 (k + 1)

/-- Is the value `undefined`? -/
def isUndefined : JSVal → Bool
  | .undefined => true
  | _ => false

/- The serialisation: `undefined` properties are omitted from objects and
`undefined` array elements are written `null`. -/
mutual
def render : JSVal → List Char
  | .undefined => "undefined".toList
  | .null => "null".toList
  | .bool b => if b then "true".toList else "false".toList
  | .num n => renderInt n
  | .str s => quote s
  | .arr xs => '[' :: (renderElems true xs ++ [']'])
  | .obj props => '{' :: (renderProps true props ++ ['}'])
def renderElems : Bool → List JSVal → List Char
  | _, [] => []
  | first, x :: rest =>
    (if first then [] else [',']) ++
      (if isUndefined x then "null".toList else render x) ++ renderElems false rest
def renderProps : Bool → List (String × JSVal) → List Char
  | _, [] => []
  | first, (k, v) :: rest =>
    if isUndefined v then renderProps first rest
    else (if first then [] else [',']) ++ quote k ++ (':' :: render v) ++ renderProps false rest
end


/-- JSON whitespace. -/
def isWs (c : Char) : Bool := c = ' ' || c = '\n' || c = '\t' || c = '\r'

/-- Drop leading whitespace. -/
def skipWs : List Char → List Char
  | [] => []
  | c :: cs => if isWs c then skipWs cs else c :: cs

/-- A decimal digit. -/
def isDigit (c : Char) : Bool := decide ('0' ≤ c) && decide (c ≤ '9')

/-- Read a run of digits, accumulating its value. -/
def digitsValue (acc : Nat) : List Char → Nat × List Char
  | [] => (acc, [])
  | c :: cs =>
    if isDigit c then digitsValue (10 * acc + (c.toNat - 48)) cs else (acc, c :: cs)

/-- Read a JSON integer without sign: `0`, or digits not starting with `0`. -/
def scanNat : List Char → Option (Nat × List Char)
  | [] => none
  | c :: cs =>
    if c = '0' then some (0, cs)
    else if isDigit c then some (digitsValue 0 (c :: cs))
    else none

/-- The value of a hexadecimal digit. -/
def hexValue (c : Char) : Option Nat :=
  if isDigit c then some (c.toNat - 48)
  else if decide ('a' ≤ c) && decide (c ≤ 'f') then some (c.toNat - 87)
  else if decide ('A' ≤ c) && decide (c ≤ 'F') then some (c.toNat - 55)
  else none

/-- The character written `\uXXXX`; `none` for a malformed escape and for a
surrogate, which lies outside the fragment. -/
def unicodeEscape (h1 h2 h3 h4 : Char) : Option Char :=
  match hexValue h1, hexValue h2, hexValue h3, hexValue h4 with
  | some a, some b, some c, some d =>
    if 55296 ≤ 4096 * a + 256 * b + 16 * c + d ∧ 4096 * a + 256 * b + 16 * c + d ≤ 57343 then none
    else some (Char.ofNat (4096 * a + 256 * b + 16 * c + d))
  | _, _, _, _ => none

/-- The character written by a one-letter escape. -/
def simpleEscape (d : Char) : Option Char :=
  if d = '"' ∨ d = '\\' ∨ d = '/' then some d
  else if d = 'n' then some '\n'
  else if d = 'r' then some '\r'
  else if d = 't' then some '\t'
  else if d = 'b' then some (Char.ofNat 8)
  else if d = 'f' then some (Char.ofNat 12)
  else none

/-- Read the rest of a string literal after its opening quote. -/
def scanString : List Char → Option (List Char × List Char)
  | [] => none
  | c :: cs =>
    if c = '"' then some ([], cs)
    else if c = '\\' then
      match cs with
      | [] => none
      | d :: rest =>
        if d = 'u' then
          match rest with
          | h1 :: h2 :: h3 :: h4 :: rest4 =>
            match unicodeEscape h1 h2 h3 h4, scanString rest4 with
            | some ch, some (body, more) => some (ch :: body, more)
            | _, _ => none
          | _ => none
        else
          match simpleEscape d, scanString rest with
          | some ch, some (body, more) => some (ch :: body, more)
          | _, _ => none
    else if c.toNat < 32 then none
    else
      match scanString cs with
      | some (body, more) => some (c :: body, more)
      | none => none

/-- Remove a literal word from the front of the text. -/
def dropLiteral : List Char → List Char → Option (List Char)
  | [], cs => some cs
  | _ :: _, [] => none
  | p :: ps, c :: cs => if p = c then dropLiteral ps cs else none

/-- Define an own property, replacing the value of an existing key in place. -/
def setOwn (k : String) (v : JSVal) : List (String × JSVal) → List (String × JSVal)
  | [] => [(k, v)]
  | (k', v') :: rest => if k' = k then (k, v) :: rest else (k', v') :: setOwn k v rest

/- The recursive-descent reader; the fuel bounds the nesting and is set by
`parse` from the length of the text. -/
mutual
def scanValue : Nat → List Char → Option (JSVal × List Char)
  | 0, _ => none
  | fuel + 1, cs =>
    match skipWs cs with
    | [] => none
    | c :: rest =>
      if c = '{' then
        match skipWs rest with
        | [] => none
        | d :: more => if d = '}' then some (.obj [], more) else scanMembers fuel [] (d :: more)
      else if c = '[' then
        match skipWs rest with
        | [] => none
        | d :: more => if d = ']' then some (.arr [], more) else scanElems fuel [] (d :: more)
      else if c = '"' then
        match scanString rest with
        | some (body, more) => some (.str (String.mk body), more)
        | none => none
      else if c = '-' then
        match scanNat rest with
        | some (n, more) => some (.num (-(n : Int)), more)
        | none => none
      else if isDigit c then
        match scanNat (c :: rest) with
        | some (n, more) => some (.num (n : Int), more)
        | none => none
      else
        match dropLiteral "null".toList (c :: rest) with
        | some more => some (.null, more)
        | none =>
          match dropLiteral "true".toList (c :: rest) with
          | some more => some (.bool true, more)
          | none =>
            match dropLiteral "false".toList (c :: rest) with
            | some more => some (.bool false, more)
            | none => none
def scanElems : Nat → List JSVal → List Char → Option (JSVal × List Char)
  | 0, _, _ => none
  | fuel + 1, acc, cs =>
    match scanValue fuel cs with
    | none => none
    | some (v, rest) =>
      match skipWs rest with
      | [] => none
      | c :: more =>
        if c = ',' then scanElems fuel (acc ++ [v]) more
        else if c = ']' then some (.arr (acc ++ [v]), more)
        else none
def scanMembers : Nat → List (String × JSVal) → List Char → Option (JSVal × List Char)
  | 0, _, _ => none
  | fuel + 1, acc, cs =>
    match skipWs cs with
    | [] => none
    | q :: afterQuote =>
      if q = '"' then
        match scanString afterQuote with
        | none => none
        | some (key, rest) =>
          match skipWs rest with
          | [] => none
          | colon :: afterColon =>
            if colon = ':' then
              match scanValue fuel afterColon with
              | none => none
              | some (v, rest2) =>
                match skipWs rest2 with
                | [] => none
                | c :: more =>
                  if c = ',' then scanMembers fuel (setOwn (String.mk key) v acc) more
                  else if c = '}' then some (.obj (setOwn (String.mk key) v acc), more)
                  else none
            else none
      else none
end

/-- `JSON.parse(s)`; `none` stands for a `SyntaxError`. -/
def parse (s : String) : Option JSVal :=
  match scanValue (s.length + 1) s.toList with
  | none => none
  | some (v, rest) => if skipWs rest = [] then some v else none

/-- `JSON.stringify(v)`, followed by the string coercion that `setItem` applies. -/
def stringify (v : JSVal) : String := String.mk (render v)


/-- The value of a string of digits; `none` if another character occurs. -/
def decimalValue (acc : Nat) : List Char → Option Nat
  | [] => some acc
  | c :: cs => if isDigit c then decimalValue (10 * acc + (c.toNat - 48)) cs else none

/-- `StringToNumber` on decimal integers: the empty or blank string is 0, a
signed run of digits is its value, anything else is `NaN`. -/
def stringToNumber (s : String) : Option Int :=
  match (skipWs (skipWs s.toList).reverse).reverse with
  | [] => some 0
  | c :: cs =>
    if c = '-' then
      (if cs = [] then none else (decimalValue 0 cs).map (fun n => -(n : Int)))
    else if c = '+' then
      (if cs = [] then none else (decimalValue 0 cs).map (fun n => (n : Int)))
    else (decimalValue 0 (c :: cs)).map (fun n => (n : Int))

/-- Is the value `null` or `undefined`? -/
def isNullish : JSVal → Bool
  | .undefined => true
  | .null => true
  | _ => false

/-- Is the value a boolean? -/
def isBoolean : JSVal → Bool
  | .bool _ => true
  | _ => false

/- `ToNumber`: an array is coerced through its string form (empty array 0,
singleton array as its element, longer arrays `NaN`), an object is `NaN`. -/
mutual
def coerce : JSVal → Option Int
  | .undefined => none
  | .null => some 0
  | .bool b => some (if b then 1 else 0)
  | .num n => some n
  | .str s => stringToNumber s
  | .arr xs => coerceElems xs
  | .obj _ => none
def coerceElems : List JSVal → Option Int
  | [] => some 0
  | x :: rest =>
    if rest.isEmpty then
      (if isNullish x then some 0 else if isBoolean x then none else coerce x)
    else none
end

end JSON

/-- The concrete platform. -/
def es : Platform :=
  { stringify := JSON.stringify, parse := JSON.parse, coerce := JSON.coerce }

/-! ## `utils/memoizer.js` -/

section Memoizer

variable {A K W : Type} [DecidableEq K]

/-- `Map.prototype.has`. -/
def mapHas (key : K) : List (K × JSVal) → Bool
  | [] => false
  | (k, _) :: rest => if k = key then true else mapHas key rest

/-- `Map.prototype.get`: `undefined` for a key that is not present. -/
def mapGet (key : K) : List (K × JSVal) → JSVal
  | [] => .undefined
  | (k, v) :: rest => if k = key then v else mapGet key rest

/-- `Map.prototype.set`: the value of a present key is replaced in place, a new
key is appended. -/
def mapSet (key : K) (v : JSVal) : List (K × JSVal) → List (K × JSVal)
  | [] => [(key, v)]
  | (k, w) :: rest => if k = key then (key, v) :: rest else (k, w) :: mapSet key v rest

/-- `Map.prototype.delete`: the entries left. -/
def mapDelete (key : K) : List (K × JSVal) → List (K × JSVal)
  | [] => []
  | (k, w) :: rest => if k = key then mapDelete key rest else (k, w) :: mapDelete key rest

/-- The closure state of one memoized function: its `cache`, the state of the
world that the wrapped computation can read and change, and a count of the
invocations of the wrapped computation (instrumentation, not in the source). -/
structure MemoState (K W : Type) where
  cache : List (K × JSVal)
  world : W
  fnCalls : Nat

/-- `memoizer(fn, keyResolver)`: the state of the closure it returns, in a world
`w`. -/
def memoizer (w : W) : MemoState K W :=
  { cache := [], world := w, fnCalls := 0 }

/-- The default `keyResolver`, `(...args) => JSON.stringify(args)`. -/
def defaultKeyResolver (env : Platform) (args : List JSVal) : String :=
  env.stringify (.arr args)

/-- `memoized(...args)`: the result or exception of the call, and the closure
state afterwards. The computation `fn` maps the arguments and the world to a
result or exception and a new world. -/
def memoized (fn : A → W → Except JSError JSVal × W) (keyResolver : A → K)
    (st : MemoState K W) (args : A) : Except JSError JSVal × MemoState K W :=
  let key := keyResolver args
  if mapHas key st.cache then (.ok (mapGet key st.cache), st)
  else
    match fn args st.world with
    | (.error e, w) => (.error e, { st with world := w, fnCalls := st.fnCalls + 1 })
    | (.ok result, w) =>
      (.ok result, { cache := mapSet key result st.cache, world := w, fnCalls := st.fnCalls + 1 })

/-- `memoized.clear()`. -/
def memoized.clear (st : MemoState K W) : MemoState K W :=
  { st with cache := [] }

/-- `memoized.delete(...args)`: whether an entry was removed, and the state
afterwards. -/
def memoized.delete (keyResolver : A → K) (st : MemoState K W) (args : A) :
    Bool × MemoState K W :=
  (mapHas (keyResolver args) st.cache,
    { st with cache := mapDelete (keyResolver args) st.cache })

/-- `memoized.has(...args)`. -/
def memoized.has (keyResolver : A → K) (st : MemoState K W) (args : A) : Bool :=
  mapHas (keyResolver args) st.cache

/-- Call the memoized function `n` times in a row with the same arguments:
the results in order, and the final state. -/
def callTimes (fn : A → W → Except JSError JSVal × W) (keyResolver : A → K) (args : A) :
    Nat → MemoState K W → List (Except JSError JSVal) × MemoState K W
  | 0, st => ([], st)
  | n + 1, st =>
    ((memoized fn keyResolver st args).1 ::
        (callTimes fn keyResolver args n (memoized fn keyResolver st args).2).1,
      (callTimes fn keyResolver args n (memoized fn keyResolver st args).2).2)

end Memoizer

/-! ## `utils/stateStore.js` -/

/-- What the property read `reducers[action]` evaluates to: a falsy value
(`undefined` for a missing property), a function, or a truthy value that is
not a function. -/
inductive Member (S P : Type) where
  | falsy
  | callable (f : S → P → Except JSError S)
  | notCallable

/-- The reducer among the table's own entries, if `action` is one of its keys. -/
def ownReducer {S P : Type} (action : String) :
    List (String × (S → P → Except JSError S)) → Option (S → P → Except JSError S)
  | [] => none
  | (k, f) :: rest => if k = action then some f else ownReducer action rest

/-- The `reducers` object passed to `stateStore`: the table proper (its own
keys, each holding a reducer function, which may throw), and what its prototype
chain supplies for a name that is not an own key (`falsy` everywhere for an
object without prototype). -/
structure Reducers (S P : Type) where
  own : List (String × (S → P → Except JSError S))
  inherited : String → Member S P

/-- The property read `reducers[action]`. -/
def Reducers.get {S P : Type} (r : Reducers S P) (action : String) : Member S P :=
  match ownReducer action r.own with
  | some f => .callable f
  | none => r.inherited action

/-- Is `action` a key of the reducer table? -/
def Reducers.hasKey {S P : Type} (r : Reducers S P) (action : String) : Bool :=
  (ownReducer action r.own).isSome

/-- The calls into the store that a listener can make while it runs; `subscribe l`
registers listener `l`, `unsubscribe l` calls the function that
`subscribe` returned for `l`. -/
inductive Cmd (P : Type) where
  | dispatch (action : String) (payload : P)
  | subscribe (l : Nat)
  | unsubscribe (l : Nat)
  | reset

/-- The closure state of one store: `state`, the `listeners` set (its entries
in insertion order, a deleted entry left as `none` as in the specification of
`Set`), and two records that are not in the source: the listener invocations
so far (listener and value received, oldest first) and the console warnings. -/
structure Store (S : Type) where
  state : S
  listeners : List (Option Nat)
  log : List (Nat × S)
  warnings : List String

/-- The arguments of `stateStore` and the listeners that exist: listener `l`,
called with a value after the invocations `log`, makes the calls
`behaviour l log value` in order. -/
structure Config (S P : Type) where
  initialState : S
  reducers : Reducers S P
  behaviour : Nat → List (Nat × S) → S → List (Cmd P)

/-- How a call into the store ends. -/
inductive Result (S : Type) where
  | outOfFuel
  | threw (e : JSError) (st : Store S)
  | done (st : Store S)

/-- `Set.prototype.add`. -/
def setAdd (l : Nat) (ls : List (Option Nat)) : List (Option Nat) :=
  if some l ∈ ls then ls else ls ++ [some l]

/-- `Set.prototype.delete`. -/
def setDelete (l : Nat) (ls : List (Option Nat)) : List (Option Nat) :=
  ls.map (fun e => if e = some l then none else e)

section Store

variable {S P : Type}

/-- `stateStore(initialState, reducers)`: the closure state of the new store. -/
def stateStore (cfg : Config S P) : Store S :=
  { state := cfg.initialState, listeners := [], log := [], warnings := [] }

/-- `getState()`. -/
def getState (st : Store S) : S := st.state

/-- `subscribe(listener)`. -/
def subscribe (st : Store S) (l : Nat) : Store S :=
  { st with listeners := setAdd l st.listeners }

/-- The function returned by `subscribe(listener)`. -/
def unsubscribe (st : Store S) (l : Nat) : Store S :=
  { st with listeners := setDelete l st.listeners }

/- `dispatch`, `reset`, the loop `listeners.forEach((listener) => listener(state))`
from entry `i` on, and the body of a listener. Every call takes one unit of
fuel. -/
mutual
def dispatch (cfg : Config S P) : Nat → Store S → String → P → Result S
  | 0, _, _, _ => .outOfFuel
  | fuel + 1, st, action, payload =>
    match cfg.reducers.get action with
    | .callable reducer =>
      match reducer st.state payload with
      | .error e => .threw e st
      | .ok s => forEachFrom cfg fuel { st with state := s } 0
    | .notCallable => .threw .typeError st
    | .falsy => .done { st with warnings := st.warnings ++ ["Unknown action: " ++ action] }
def reset (cfg : Config S P) : Nat → Store S → Result S
  | 0, _ => .outOfFuel
  | fuel + 1, st => forEachFrom cfg fuel { st with state := cfg.initialState } 0
def forEachFrom (cfg : Config S P) : Nat → Store S → Nat → Result S
  | 0, _, _ => .outOfFuel
  | fuel + 1, st, i =>
    match st.listeners.get? i with
    | none => .done st
    | some none => forEachFrom cfg fuel st (i + 1)
    | some (some l) =>
      match runCmds cfg fuel { st with log := st.log ++ [(l, st.state)] }
          (cfg.behaviour l st.log st.state) with
      | .done st1 => forEachFrom cfg fuel st1 (i + 1)
      | r => r
def runCmds (cfg : Config S P) : Nat → Store S → List (Cmd P) → Result S
  | 0, _, _ => .outOfFuel
  | _ + 1, st, [] => .done st
  | fuel + 1, st, c :: rest =>
    match (match c with
      | .dispatch action payload => dispatch cfg fuel st action payload
      | .subscribe l => .done (subscribe st l)
      | .unsubscribe l => .done (unsubscribe st l)
      | .reset => reset cfg fuel st) with
    | .done st1 => runCmds cfg fuel st1 rest
    | r => r
end

/-- The invocations recorded when a call ends normally; empty otherwise. -/
def Result.log : Result S → List (Nat × S)
  | .done st => st.log
  | _ => []

end Store

/-- Call `dispatch` for each pair of action name and payload in turn, stopping
at the first call that does not end normally. -/
def dispatchAll {S P : Type} (cfg : Config S P) (fuel : Nat) :
    Store S → List (String × P) → Result S
  | st, [] => .done st
  | st, (action, payload) :: rest =>
    match dispatch cfg fuel st action payload with
    | .done st1 => dispatchAll cfg fuel st1 rest
    | r => r

/-- The left fold of the table's reducers over the calls whose action is a key
of the table, skipping the others; `none` if a reducer throws. -/
def foldKnown {S P : Type} (r : Reducers S P) : S → List (String × P) → Option S
  | s, [] => some s
  | s, (action, payload) :: rest =>
    match ownReducer action r.own with
    | none => foldKnown r s rest
    | some f =>
      match f s payload with
      | .ok s1 => foldKnown r s1 rest
      | .error _ => none

/-- A call that changes neither the state nor the run of a pass by itself:
`subscribe` or `unsubscribe`, as opposed to `dispatch` and `reset`. -/
def Cmd.isPassive {P : Type} : Cmd P → Bool
  | .subscribe _ => true
  | .unsubscribe _ => true
  | _ => false

/-- No listener calls `dispatch` or `reset`. -/
def Config.passive {S P : Type} (cfg : Config S P) : Prop :=
  ∀ l log v, ∀ c ∈ cfg.behaviour l log v, c.isPassive = true

/-- The listeners of the set from entry `i` on, in insertion order. -/
def liveFrom (ls : List (Option Nat)) (i : Nat) : List Nat :=
  (ls.drop i).filterMap id

/-! ## Concrete stores -/

/- `ToString` on the fragment: an array is its elements joined by commas, with
`null` and `undefined` elements empty. -/
mutual
def toStringChars : JSVal → List Char
  | .undefined => "undefined".toList
  | .null => "null".toList
  | .bool b => if b then "true".toList else "false".toList
  | .num n => JSON.renderInt n
  | .str s => s.toList
  | .arr xs => joinChars true xs
  | .obj _ => "[object Object]".toList
def joinChars : Bool → List JSVal → List Char
  | _, [] => []
  | first, x :: rest =>
    (if first then [] else [',']) ++
      (if JSON.isNullish x then [] else toStringChars x) ++ joinChars false rest
end

/-- The values that the state of the store `stateStore(0, tableOfSet)` below can
take: a value of the fragment, the `reducers` object itself, the wrapper
object of a primitive, and the getter and the setter of
`Object.prototype.__proto__`. -/
inductive StoreVal where
  | js (v : JSVal)
  | table
  | boxed (v : JSVal)
  | accessor (getter : Bool)

/-- `ToPropertyKey`; `none` for a function, whose source text is no property
name in use here. -/
def StoreVal.toKey : StoreVal → Option String
  | .js v => some (String.mk (toStringChars v))
  | .table => some "[object Object]"
  | .boxed v => some (String.mk (toStringChars v))
  | .accessor _ => none

/-- The call `Object(value)`. -/
def StoreVal.toObject : StoreVal → StoreVal
  | .js .undefined => .js (.obj [])
  | .js .null => .js (.obj [])
  | .js (.bool b) => .boxed (.bool b)
  | .js (.num n) => .boxed (.num n)
  | .js (.str s) => .boxed (.str s)
  | v => v

/-- What the object literal `{ set: (state, payload) => payload }` inherits
from `Object.prototype`, as `reducers[name]` and the call
`reducers[name](state, payload)` see it. -/
def inheritedBySetTable (name : String) : Member StoreVal JSVal :=
  if name = "toString" ∨ name = "toLocaleString" then
    .callable (fun _ _ => .ok (.js (.str "[object Object]")))
  else if name = "valueOf" then .callable (fun _ _ => .ok .table)
  else if name = "constructor" then .callable (fun state _ => .ok state.toObject)
  else if name = "hasOwnProperty" ∨ name = "propertyIsEnumerable" then
    .callable (fun state _ => .ok (.js (.bool (decide (state.toKey = some "set")))))
  else if name = "isPrototypeOf" then .callable (fun _ _ => .ok (.js (.bool false)))
  else if name = "__proto__" then .notCallable
  else if name = "__defineGetter__" ∨ name = "__defineSetter__" then
    .callable (fun _ _ => .error .typeError)
  else if name = "__lookupGetter__" then
    .callable (fun state _ =>
      .ok (if state.toKey = some "__proto__" then .accessor true else .js .undefined))
  else if name = "__lookupSetter__" then
    .callable (fun state _ =>
      .ok (if state.toKey = some "__proto__" then .accessor false else .js .undefined))
  else .falsy

/-- The reducers object `{ set: (state, payload) => payload }`. -/
def tableOfSet : Reducers StoreVal JSVal :=
  { own := [("set", fun _ payload => .ok (.js payload))], inherited := inheritedBySetTable }

/-- The store `stateStore(0, { set: (state, payload) => payload })` with
listeners that make no call into the store. -/
def storeOfSet : Config StoreVal JSVal :=
  { initialState := .js (.num 0), reducers := tableOfSet, behaviour := fun _ _ _ => [] }

/-- The reducers object `{ increment: (state) => state + 1 }` on number states,
created without prototype. -/
def tableOfIncrement : Reducers Int Unit :=
  { own := [("increment", fun state _ => .ok (state + 1))], inherited := fun _ => .falsy }

/-- A counter store whose listener 0 dispatches `increment` again when it
receives 1; the other listeners make no call. -/
def storeReentrant : Config Int Unit :=
  { initialState := 0, reducers := tableOfIncrement,
    behaviour := fun l _ v => if l = 0 ∧ v = 1 then [.dispatch "increment" ()] else [] }

/-- A counter store whose listener 0 calls the unsubscribe function of
listener 1 whenever it is notified; the other listeners make no call. -/
def storeUnsubscribing : Config Int Unit :=
  { initialState := 0, reducers := tableOfIncrement,
    behaviour := fun l _ _ => if l = 0 then [.unsubscribe 1] else [] }

/-- The store `after` can be reached from `before` by calls into the store: the
record of invocations has only grown at its end, the listener set has only
grown at its end, and an entry of the set has changed only by being deleted. -/
def Store.evolvesTo {S : Type} (before after : Store S) : Prop :=
  (∃ extra, after.log = before.log ++ extra) ∧
    before.listeners.length ≤ after.listeners.length ∧
    ∀ j l, j < before.listeners.length → after.listeners.get? j = some (some l) →
      before.listeners.get? j = some (some l)

/-- The reducers object `{ increment: (state) => state + 1, boom: () => { throw ... } }`
on number states, created without prototype. -/
def tableWithBoom : Reducers Int Unit :=
  { own := [("increment", fun state _ => .ok (state + 1)), ("boom", fun _ _ => .error .typeError)],
    inherited := fun _ => .falsy }

/-- A counter store whose listener 0, the first time it is notified, calls its
own unsubscribe function and then subscribes itself again; the other
listeners make no call. -/
def storeResubscribing : Config Int Unit :=
  { initialState := 0, reducers := tableOfIncrement,
    behaviour := fun l log _ =>
      if l = 0 ∧ log = [] then [.unsubscribe 0, .subscribe 0] else [] }

/-- A store whose listener 0 subscribes listener 1 the first time it is
notified and dispatches the throwing action `boom` every time after; the
other listeners make no call. -/
def storeAborting : Config Int Unit :=
  { initialState := 0, reducers := tableWithBoom,
    behaviour := fun l log _ =>
      if l = 0 then (if log = [] then [.subscribe 1] else [.dispatch "boom" ()]) else [] }

/-- Between `before` and `after`, listener `L` has stayed out of the listener
set at the end and has not been invoked. -/
def Store.silentFor {S : Type} (L : Nat) (before after : Store S) : Prop :=
  some L ∉ after.listeners ∧
    ∃ extra, after.log = before.log ++ extra ∧ ∀ e ∈ extra, e.1 ≠ L

/-! ## `utils/cloneObj.js` and `utils/checkObjState.js`: values -/

/-- The three built-in prototypes that the modelled values inherit from. -/
inductive Proto where
  | object
  | array
  | date
  deriving DecidableEq

/-- The values handled by `cloneObj` and `checkObjState`, as trees: primitives
(`NaN` apart from the integer numbers), functions identified by name, `Date`
objects with their instant in milliseconds, the built-in prototype objects,
arrays without holes, and plain objects given by their own enumerable
string-keyed properties in enumeration order, each key once. -/
inductive Val where
  | undefined
  | null
  | bool (b : Bool)
  | num (n : Int)
  | nan
  | str (s : String)
  | fn (name : String)
  | date (ms : Int)
  | proto (p : Proto)
  | arr (xs : List Val)
  | obj (props : List (String × Val))
  deriving Inhabited

/-- `typeof v === 'object' && v !== null`. -/
def Val.isObject : Val → Bool
  | .date _ => true
  | .proto _ => true
  | .arr _ => true
  | .obj _ => true
  | _ => false

/-- Define or replace an own property. -/
def putOwn (key : String) (v : Val) : List (String × Val) → List (String × Val)
  | [] => [(key, v)]
  | (k, w) :: rest => if k = key then (key, v) :: rest else (k, w) :: putOwn key v rest

/-- The assignment `target[key] = v` on an object created by `{}`, as far as
its own properties go: the key `__proto__` reaches the setter inherited from
`Object.prototype`, which creates no own property. -/
def writeProp (target : List (String × Val)) (key : String) (v : Val) : List (String × Val) :=
  if key = "__proto__" then target else putOwn key v target

/-! ## `utils/cloneObj.js` -/

/-- The call `structuredClone(v)` inside `try`: `none` when the function is not
available or throws. -/
def tryStructuredClone (sc : Option (Val → Option Val)) (v : Val) : Option Val :=
  match sc with
  | none => none
  | some f => f v

/- `cloneObj(obj)`: `sc` is `structuredClone` (`none` if the platform has none; a
result `none` stands for an exception). `cloneElems` is `obj.map(cloneObj)`,
`cloneProps` the `for ... in` loop over the own properties, with the clone
built so far. -/
mutual
def cloneObj (sc : Option (Val → Option Val)) : Val → Val
  | .date ms => (tryStructuredClone sc (.date ms)).getD (.date ms)
  | .proto p =>
    (tryStructuredClone sc (.proto p)).getD
      (match p with
        | .array => .arr []
        | _ => .obj [])
  | .arr xs => (tryStructuredClone sc (.arr xs)).getD (.arr (cloneElems sc xs))
  | .obj props => (tryStructuredClone sc (.obj props)).getD (.obj (cloneProps sc props []))
  | .undefined => .undefined
  | .null => .null
  | .bool b => .bool b
  | .num n => .num n
  | .nan => .nan
  | .str s => .str s
  | .fn name => .fn name
def cloneElems (sc : Option (Val → Option Val)) : List Val → List Val
  | [] => []
  | x :: rest => cloneObj sc x :: cloneElems sc rest
def cloneProps (sc : Option (Val → Option Val)) :
    List (String × Val) → List (String × Val) → List (String × Val)
  | [], clone => clone
  | (key, v) :: rest, clone => cloneProps sc rest (writeProp clone key (cloneObj sc v))
end

/- Data built from primitives, functions, `Date` values, arrays and plain
objects none of which has an own property named `__proto__`, each key once. -/
mutual
def Val.plain : Val → Bool
  | .proto _ => false
  | .arr xs => plainElems xs
  | .obj props => plainProps [] props
  | _ => true
def plainElems : List Val → Bool
  | [] => true
  | x :: rest => x.plain && plainElems rest
def plainProps : List String → List (String × Val) → Bool
  | _, [] => true
  | seen, (key, v) :: rest =>
    decide (key ≠ "__proto__") && decide (key ∉ seen) && v.plain && plainProps (key :: seen) rest
end

/-! ## `utils/cloneObj.js` on a heap -/

/-- Values with object identity: a primitive, or a reference to an object of
the heap by its address. -/
inductive HVal where
  | undefined
  | null
  | bool (b : Bool)
  | num (n : Int)
  | str (s : String)
  | ref (addr : Nat)

/-- An object of the heap: a `Date`, an array, or a plain object given by its
own enumerable properties. -/
inductive HObj where
  | date (ms : Int)
  | arr (xs : List HVal)
  | obj (props : List (String × HVal))

/-- Define or replace an own property of a heap object. -/
def putRef (key : String) (v : HVal) : List (String × HVal) → List (String × HVal)
  | [] => [(key, v)]
  | (k, w) :: rest => if k = key then (key, v) :: rest else (k, w) :: putRef key v rest

/-- The assignment `clone[key] = v` on the plain object at address `target`;
the key `__proto__` creates no own property. -/
def assignField (heap : List HObj) (target : Nat) (key : String) (v : HVal) : List HObj :=
  match heap.get? target with
  | some (.obj props) =>
    if key = "__proto__" then heap else heap.set target (.obj (putRef key v props))
  | _ => heap

/-- The callbacks of `obj.map(cloneObj)`, in index order. -/
def cloneEach (recurse : List HObj → HVal → Option (HVal × List HObj)) :
    List HObj → List HVal → Option (List HVal × List HObj)
  | heap, [] => some ([], heap)
  | heap, x :: rest =>
    match recurse heap x with
    | none => none
    | some (y, heap1) =>
      match cloneEach recurse heap1 rest with
      | none => none
      | some (ys, heap2) => some (y :: ys, heap2)

/-- The loop `for (const key in obj) ... clone[key] = cloneObj(obj[key])` over
the own properties of the source, writing into the object at `target`. -/
def cloneFields (recurse : List HObj → HVal → Option (HVal × List HObj)) (target : Nat) :
    List HObj → List (String × HVal) → Option (List HObj)
  | heap, [] => some heap
  | heap, (key, v) :: rest =>
    match recurse heap v with
    | none => none
    | some (c, heap1) => cloneFields recurse target (assignField heap1 target key c) rest

/-- The call `structuredClone(v)` inside `try`, on a heap: `none` when the
function is not available or throws. -/
def tryStructuredCloneHeap (sc : Option (List HObj → HVal → Option (HVal × List HObj)))
    (heap : List HObj) (v : HVal) : Option (HVal × List HObj) :=
  match sc with
  | none => none
  | some f => f heap v

/-- `cloneObj(v)` on a heap: the clone and the heap afterwards, new objects
being allocated at the end of the heap. `sc` is `structuredClone`. The fuel
bounds the depth of the recursion; `none` means that it ran out. -/
def cloneObjHeap (sc : Option (List HObj → HVal → Option (HVal × List HObj))) :
    Nat → List HObj → HVal → Option (HVal × List HObj)
  | 0, _, _ => none
  | fuel + 1, heap, v =>
    match v with
    | .ref a =>
      match tryStructuredCloneHeap sc heap (.ref a) with
      | some r => some r
      | none =>
        match heap.get? a with
        | none => some (.ref a, heap)
        | some (.date ms) => some (.ref heap.length, heap ++ [.date ms])
        | some (.arr xs) =>
          match cloneEach (cloneObjHeap sc fuel) (heap ++ [.arr []]) xs with
          | none => none
          | some (ys, heap1) => some (.ref heap.length, heap1.set heap.length (.arr ys))
        | some (.obj props) =>
          match cloneFields (cloneObjHeap sc fuel) heap.length (heap ++ [.obj []]) props with
          | none => none
          | some heap1 => some (.ref heap.length, heap1)
    | _ => some (v, heap)

/-! ## `utils/checkObjState.js` -/

/-- The key of the array index `i`. -/
def indexKey (i : Nat) : String := String.mk (Nat.toDigits 10 i)

/-- The keys of the indices `i`, ..., `i + n - 1`, in order. -/
def indexKeysFrom : Nat → Nat → List String
  | _, 0 => []
  | i, n + 1 => indexKey i :: indexKeysFrom (i + 1) n

/-- The element of an array under the key of its index, counting from `i`. -/
def elementAt (key : String) : Nat → List Val → Option Val
  | _, [] => none
  | i, x :: rest => if key = indexKey i then some x else elementAt key (i + 1) rest

/-- The own property of a plain object under a key. -/
def lookupOwn (key : String) : List (String × Val) → Option Val
  | [] => none
  | (k, v) :: rest => if k = key then some v else lookupOwn key rest

/-- `Object.keys(v)` for an object: the own enumerable string keys. -/
def ownKeys : Val → List String
  | .obj props => props.map Prod.fst
  | .arr xs => indexKeysFrom 0 xs.length
  | _ => []

/-- The function-valued properties of `Object.prototype`. -/
def objectMethods : List String :=
  ["constructor", "hasOwnProperty", "isPrototypeOf", "propertyIsEnumerable", "toLocaleString",
   "toString", "valueOf", "__defineGetter__", "__defineSetter__", "__lookupGetter__",
   "__lookupSetter__"]

/-- The function-valued properties of `Array.prototype` (ECMAScript 2023). -/
def arrayMethods : List String :=
  ["at", "concat", "constructor", "copyWithin", "entries", "every", "fill", "filter", "find",
   "findIndex", "findLast", "findLastIndex", "flat", "flatMap", "forEach", "includes",
   "indexOf", "join", "keys", "lastIndexOf", "map", "pop", "push", "reduce", "reduceRight",
   "reverse", "shift", "slice", "some", "sort", "splice", "toLocaleString", "toReversed",
   "toSorted", "toSpliced", "toString", "unshift", "values", "with"]

/-- The function-valued properties of `Date.prototype` (ECMAScript 2023, with
the legacy methods of browsers). -/
def dateMethods : List String :=
  ["constructor", "getDate", "getDay", "getFullYear", "getHours", "getMilliseconds",
   "getMinutes", "getMonth", "getSeconds", "getTime", "getTimezoneOffset", "getUTCDate",
   "getUTCDay", "getUTCFullYear", "getUTCHours", "getUTCMilliseconds", "getUTCMinutes",
   "getUTCMonth", "getUTCSeconds", "getYear", "setDate", "setFullYear", "setHours",
   "setMilliseconds", "setMinutes", "setMonth", "setSeconds", "setTime", "setUTCDate",
   "setUTCFullYear", "setUTCHours", "setUTCMilliseconds", "setUTCMinutes", "setUTCMonth",
   "setUTCSeconds", "setYear", "toDateString", "toGMTString", "toISOString", "toJSON",
   "toLocaleDateString", "toLocaleString", "toLocaleTimeString", "toString", "toTimeString",
   "toUTCString", "valueOf"]

/-- The property `key` of `Object.prototype`, `__proto__` apart. -/
def objectMember (key : String) : Val :=
  if key ∈ objectMethods then .fn ("Object.prototype." ++ key) else .undefined

/-- What a property read finds under `key` on the prototype chain that starts at
the built-in prototype `p`, `__proto__` and the `length` of `Array.prototype`
apart. -/
def inheritedMember (p : Proto) (key : String) : Val :=
  match p with
  | .object => objectMember key
  | .array => if key ∈ arrayMethods then .fn ("Array.prototype." ++ key) else objectMember key
  | .date => if key ∈ dateMethods then .fn ("Date.prototype." ++ key) else objectMember key

/-- The property read `v[key]` on an object: an own property, or else what the
prototype chain supplies. The code reads properties of objects only; on
another value the embedding gives `undefined`. -/
def readProp (v : Val) (key : String) : Val :=
  match v with
  | .obj props =>
    match lookupOwn key props with
    | some x => x
    | none => if key = "__proto__" then .proto .object else inheritedMember .object key
  | .arr xs =>
    match elementAt key 0 xs with
    | some x => x
    | none =>
      if key = "length" then .num xs.length
      else if key = "__proto__" then .proto .array
      else inheritedMember .array key
  | .date _ => if key = "__proto__" then .proto .date else inheritedMember .date key
  | .proto p =>
    if key = "__proto__" then
      (match p with
        | .object => .null
        | _ => .proto .object)
    else if key = "length" ∧ p = .array then .num 0
    else inheritedMember p key
  | _ => .undefined

/-- The comparison `a === b`. Two objects are compared by identity, which the
tree of a `Date`, an array or a plain object does not carry: the embedding
answers `false` for them, and `checkObjState` compares with `!==` only when
one operand is not an object. -/
def strictEq : Val → Val → Bool
  | .undefined, .undefined => true
  | .null, .null => true
  | .bool a, .bool b => a == b
  | .num a, .num b => a == b
  | .str a, .str b => a == b
  | .fn a, .fn b => a == b
  | .proto p, .proto q => decide (p = q)
  | _, _ => false

/-- The elements of a list in order, each kept at its first occurrence: the
iteration order of `new Set(list)`. -/
def uniq : List String → List String
  | [] => []
  | k :: rest => k :: (uniq rest).filter (fun x => x ≠ k)

/-- The keys that `checkObjState` visits, in order. -/
def allKeys (original updated : Val) : List String :=
  uniq (ownKeys original ++ ownKeys updated)

/-- How a call of `checkObjState` ends in the embedding: out of fuel, on an
argument that is not an object (the parameters are declared as objects), or
with the object of changes. -/
inductive DiffResult where
  | outOfFuel
  | notObject
  | ok (changes : Val)

/-- The loop `allKeys.forEach((key) => ...)`, with `recurse` for the recursive
call and `changes` for the object built so far. -/
def forEachKey (recurse : Val → Val → DiffResult) (original updated : Val) :
    List String → List (String × Val) → DiffResult
  | [], changes => .ok (.obj changes)
  | key :: rest, changes =>
    if (readProp original key).isObject && (readProp updated key).isObject then
      match recurse (readProp original key) (readProp updated key) with
      | .ok nestedDiff =>
        if (ownKeys nestedDiff).length > 0 then
          forEachKey recurse original updated rest (writeProp changes key nestedDiff)
        else forEachKey recurse original updated rest changes
      | r => r
    else if strictEq (readProp original key) (readProp updated key) = false then
      forEachKey recurse original updated rest (writeProp changes key (readProp updated key))
    else forEachKey recurse original updated rest changes

/-- `checkObjState(original, updated)`; the fuel bounds the depth of the
recursion. -/
def checkObjState : Nat → Val → Val → DiffResult
  | 0, _, _ => .outOfFuel
  | fuel + 1, original, updated =>
    if original.isObject && updated.isObject then
      forEachKey (checkObjState fuel) original updated (allKeys original updated) []
    else .notObject

/- A bound on the depth of the recursion of `checkObjState` into a value: every
property read on an object gives a value of smaller depth. -/
mutual
def Val.depth : Val → Nat
  | .date _ => 3
  | .proto .object => 1
  | .proto _ => 2
  | .arr xs => 3 + depthElems xs
  | .obj props => 2 + depthProps props
  | _ => 0
def depthElems : List Val → Nat
  | [] => 0
  | x :: rest => max x.depth (depthElems rest)
def depthProps : List (String × Val) → Nat
  | [] => 0
  | (_, v) :: rest => max v.depth (depthProps rest)
end

/- No `NaN` occurs in the value. -/
mutual
def Val.noNaN : Val → Bool
  | .nan => false
  | .arr xs => noNaNElems xs
  | .obj props => noNaNProps props
  | _ => true
def noNaNElems : List Val → Bool
  | [] => true
  | x :: rest => x.noNaN && noNaNElems rest
def noNaNProps : List (String × Val) → Bool
  | [] => true
  | (_, v) :: rest => v.noNaN && noNaNProps rest
end


/-- The assignment `target[key] = v` on a plain object. -/
def assignKey (target : Val) (key : String) (v : Val) : Val :=
  match target with
  | .obj props => .obj (writeProp props key v)
  | other => other

/-- The object `{ a: { x: 1, y: 2 }, n: 1 }`. -/
def nestedOriginal : Val :=
  .obj [("a", .obj [("x", .num 1), ("y", .num 2)]), ("n", .num 1)]

/-- The object `{ a: { x: 1, y: 3 }, n: 2 }`. -/
def nestedUpdated : Val :=
  .obj [("a", .obj [("x", .num 1), ("y", .num 3)]), ("n", .num 2)]

/-- The object `{ a: [1, 2] }`. -/
def arrayOriginal : Val := .obj [("a", .arr [.num 1, .num 2])]

/-- The object `{ a: [1, 3] }`. -/
def arrayUpdated : Val := .obj [("a", .arr [.num 1, .num 3])]

/-- Is `key` the name of a function found on the chain that starts at the
built-in prototype `p`? -/
def inMethods (p : Proto) (key : String) : Bool :=
  match p with
  | .object => decide (key ∈ objectMethods)
  | .array => decide (key ∈ arrayMethods) || decide (key ∈ objectMethods)
  | .date => decide (key ∈ dateMethods) || decide (key ∈ objectMethods)

/-- `key in v` for an object: an own property or one found on the prototype
chain. -/
def hasProperty (v : Val) (key : String) : Bool :=
  match v with
  | .obj props =>
    (lookupOwn key props).isSome || decide (key = "__proto__") || inMethods .object key
  | .arr xs =>
    (elementAt key 0 xs).isSome || decide (key = "length") || decide (key = "__proto__") ||
      inMethods .array key
  | .date _ => decide (key = "__proto__") || inMethods .date key
  | .proto p =>
    decide (key = "__proto__") || (decide (key = "length") && decide (p = .array)) ||
      inMethods p key
  | _ => false

/-! ## Properties of `cacheForTime` -/

theorem findItem_putItem (k s : String) (items : List (String × String)) :
    findItem k (putItem k s items) = some s := by
  induction items with
  | nil => simp [putItem, findItem]
  | cons hd tl ih =>
    obtain ⟨k', s'⟩ := hd
    by_cases h : k' = k
    · simp [putItem, findItem, h]
    · simp [putItem, findItem, h, ih]

theorem findItem_dropItem (k : String) (items : List (String × String)) :
    findItem k (dropItem k items) = none := by
  induction items with
  | nil => simp [dropItem, findItem]
  | cons hd tl ih =>
    obtain ⟨k', s'⟩ := hd
    by_cases h : k' = k
    · simp [dropItem, h, ih]
    · simp [dropItem, findItem, h, ih]

/-- What `get` does on a key whose stored string parses to an item with a
numeric `expiry`: the item is returned while `now ≤ expiry` and evicted once
`now > expiry`. -/
theorem get_of_numeric_expiry (env : Platform) (now : Int) (m : Medium) (key s : String)
    (item v : JSVal) (e : Int) (hget : m.getItemThrows = false)
    (hs : findItem key m.items = some s) (hne : s ≠ "")
    (hparse : env.parse s = some item)
    (hexp : getProp item "expiry" = .ok (.num e))
    (hval : getProp item "value" = .ok v) :
    cacheForTime.get env now m key =
      if now > e then
        (match m.removeItem key with
          | .ok m' => .ok (.null, m')
          | .error _ => .ok (.null, m))
      else .ok (v, m) := by
  unfold cacheForTime.get Medium.getItem cacheForTime.getTry
  by_cases h : now > e
  · cases hr : m.removeItem key <;>
      simp [hget, hs, hne, hparse, hexp, jsGt, toNumber, h, hr]
  · simp [hget, hs, hne, hparse, hexp, hval, jsGt, toNumber, h]

/-- What `isValid` does on a key whose stored string parses to an item with a
numeric `expiry`. -/
theorem isValid_of_numeric_expiry (env : Platform) (now : Int) (m : Medium) (key s : String)
    (item : JSVal) (e : Int) (hget : m.getItemThrows = false)
    (hs : findItem key m.items = some s) (hne : s ≠ "")
    (hparse : env.parse s = some item)
    (hexp : getProp item "expiry" = .ok (.num e)) :
    cacheForTime.isValid env now m key = .ok (decide (now < e)) := by
  unfold cacheForTime.isValid Medium.getItem cacheForTime.isValidTry
  simp [hget, hs, hne, hparse, hexp, jsLt, toNumber]

/-- C1, the code at the failing input: an entry written with ttl 0 at instant
1000 has expiry 1000, and a `get` issued at that same instant (`now = expiry`)
still returns the stored value 1 instead of null, while `isValid` at that
instant already answers false. -/
theorem cacheForTime_get_at_expiry_returns_value :
    cacheForTime.set es 1000 (Medium.reliable []) "a" (.num 1) 0 =
        .ok (Medium.reliable [("a", "\x7b\"value\":1,\"expiry\":1000\x7d")]) ∧
      cacheForTime.get es 1000
          (Medium.reliable [("a", "\x7b\"value\":1,\"expiry\":1000\x7d")]) "a" =
        .ok (.num 1, Medium.reliable [("a", "\x7b\"value\":1,\"expiry\":1000\x7d")]) ∧
      cacheForTime.isValid es 1000
          (Medium.reliable [("a", "\x7b\"value\":1,\"expiry\":1000\x7d")]) "a" = .ok false :=
  ⟨rfl, rfl, rfl⟩

/-- C2 as stated fails: the value is stored as JSON text, and what `get` returns
is what `JSON.parse` reads back from it. With the ECMAScript codec and an empty
medium, `set('a', [undefined], 1000)` at instant 0 followed by `get('a')` at
instant 0 returns `[null]`, and with the value `{ x: undefined }` it returns
`{}`. Nor does every `ttl ≥ 0` keep the entry: for `ttl = Infinity` the expiry is
`Infinity`, which `JSON.stringify` writes as `null`, and the entry
`{"value":1,"expiry":null}` is evicted by a `get` at instant 1 (`1 > null`). -/
theorem cacheForTime_get_returns_json_image :
    cacheForTime.set es 0 (Medium.reliable []) "a" (.arr [.undefined]) 1000 =
        .ok (Medium.reliable [("a", "\x7b\"value\":[null],\"expiry\":1000\x7d")]) ∧
      cacheForTime.get es 0
          (Medium.reliable [("a", "\x7b\"value\":[null],\"expiry\":1000\x7d")]) "a" =
        .ok (.arr [.null],
          Medium.reliable [("a", "\x7b\"value\":[null],\"expiry\":1000\x7d")]) ∧
      JSVal.arr [.null] ≠ JSVal.arr [.undefined] ∧
      cacheForTime.set es 0 (Medium.reliable []) "a" (.obj [("x", .undefined)]) 1000 =
        .ok (Medium.reliable [("a", "\x7b\"value\":\x7b\x7d,\"expiry\":1000\x7d")]) ∧
      cacheForTime.get es 0
          (Medium.reliable [("a", "\x7b\"value\":\x7b\x7d,\"expiry\":1000\x7d")]) "a" =
        .ok (.obj [],
          Medium.reliable [("a", "\x7b\"value\":\x7b\x7d,\"expiry\":1000\x7d")]) ∧
      JSVal.obj [] ≠ JSVal.obj [("x", .undefined)] ∧
      cacheForTime.get es 1
          (Medium.reliable [("a", "\x7b\"value\":1,\"expiry\":null\x7d")]) "a" =
        .ok (.null, Medium.reliable []) :=
  ⟨rfl, rfl, (fun h => by simp at h), rfl, rfl, (fun h => by simp at h), rfl⟩

/-- C2 as amended: for a medium whose `setItem` and `getItem` do not throw, a
value whose entry the JSON codec reads back with the same `value` and `expiry`,
and integer instants and `ttl ≥ 0` (finite, added exactly), `set(k, v, ttl)` at
instant `t` followed by `get(k)` at `t` returns `v`; at every instant
`t1 > t + ttl`, `get(k)` returns null and any later `isValid(k)` returns
false. -/
theorem cacheForTime_set_then_get (env : Platform) (m : Medium) (k : String) (v : JSVal)
    (ttl t : Int) (httl : 0 ≤ ttl)
    (hset : m.setItemThrows = false) (hget : m.getItemThrows = false)
    (hempty : env.parse "" = none)
    (hcodec : ∃ item, env.parse (env.stringify (cacheEntry v (t + ttl))) = some item ∧
      getProp item "expiry" = .ok (.num (t + ttl)) ∧ getProp item "value" = .ok v) :
    ∃ m1, cacheForTime.set env t m k v ttl = .ok m1 ∧
      cacheForTime.get env t m1 k = .ok (v, m1) ∧
      ∀ t1, t + ttl < t1 →
        ∃ m2, cacheForTime.get env t1 m1 k = .ok (.null, m2) ∧
          ∀ t2, t1 ≤ t2 → cacheForTime.isValid env t2 m2 k = .ok false := by
  obtain ⟨item, hparse, hexp, hval⟩ := hcodec
  have hne : env.stringify (cacheEntry v (t + ttl)) ≠ "" := by
    intro h
    rw [h, hempty] at hparse
    cases hparse
  obtain ⟨m1, hm1⟩ : ∃ m1 : Medium, m1 =
      { m with items := putItem k (env.stringify (cacheEntry v (t + ttl))) m.items } :=
    ⟨_, rfl⟩
  have hget1 : m1.getItemThrows = false := by rw [hm1]; exact hget
  have hfind : findItem k m1.items = some (env.stringify (cacheEntry v (t + ttl))) := by
    rw [hm1]; exact findItem_putItem _ _ _
  refine ⟨m1, ?_, ?_, ?_⟩
  · simp [cacheForTime.set, Medium.setItem, hset, hm1]
  · rw [get_of_numeric_expiry env t m1 k _ item v (t + ttl) hget1 hfind hne hparse hexp hval]
    have : ¬ t > t + ttl := by omega
    simp [this]
  · intro t1 ht1
    rw [get_of_numeric_expiry env t1 m1 k _ item v (t + ttl) hget1 hfind hne hparse hexp hval]
    have h1 : t1 > t + ttl := ht1
    simp only [h1, if_true]
    by_cases hrm : m1.removeItemThrows = true
    · refine ⟨m1, by simp [Medium.removeItem, hrm], ?_⟩
      intro t2 ht2
      rw [isValid_of_numeric_expiry env t2 m1 k _ item (t + ttl) hget1 hfind hne hparse hexp]
      have : ¬ t2 < t + ttl := by omega
      simp [this]
    · refine ⟨{ m1 with items := dropItem k m1.items }, by simp [Medium.removeItem, hrm], ?_⟩
      intro t2 _
      simp [cacheForTime.isValid, Medium.getItem, hget1, findItem_dropItem]

/-- C2 as amended, at the spec's scenario: `set('a', {x:1}, 1000)` at instant 0
on an empty medium, with the concrete JSON codec. -/
theorem cacheForTime_set_then_get_witness :
    ∃ m1, cacheForTime.set es 0 (Medium.reliable []) "a" (.obj [("x", .num 1)]) 1000 = .ok m1 ∧
      cacheForTime.get es 0 m1 "a" = .ok (.obj [("x", .num 1)], m1) ∧
      ∀ t1, 0 + 1000 < t1 →
        ∃ m2, cacheForTime.get es t1 m1 "a" = .ok (.null, m2) ∧
          ∀ t2, t1 ≤ t2 → cacheForTime.isValid es t2 m2 "a" = .ok false :=
  cacheForTime_set_then_get es (Medium.reliable []) "a" (.obj [("x", .num 1)]) 1000 0
    (by decide) rfl rfl rfl ⟨_, rfl, rfl, rfl⟩

/-- C3 as stated fails: the stored string `{"value":1}` is JSON without an
`expiry`, yet `get` returns 1; the stored string `5` makes `get` return
`undefined`; a key with no entry gives null. And for the stored string
`{"expiry":"99"}`, whose expiry is a string, `isValid` at instant 5 is true. -/
theorem cacheForTime_get_entry_without_expiry :
    (cacheForTime.get es 0 (Medium.reliable [("a", "\x7b\"value\":1\x7d")]) "a").map Prod.fst
        = .ok (.num 1) ∧
      (cacheForTime.get es 0 (Medium.reliable [("a", "5")]) "a").map Prod.fst
        = .ok .undefined ∧
      (cacheForTime.get es 0 (Medium.reliable []) "a").map Prod.fst = .ok .null ∧
      cacheForTime.isValid es 5 (Medium.reliable [("a", "\x7b\"expiry\":\"99\"\x7d")]) "a"
        = .ok true :=
  ⟨rfl, rfl, rfl, rfl⟩

/-- C3 as amended: when the stored string is rejected by `JSON.parse`, or
parses to `null`, `get` returns null and `isValid` returns false, as for a key
with no entry; when it parses to a value without an `expiry` property,
`isValid` returns false and `get` returns that value's `value` property rather
than null. Neither call throws in either case. -/
theorem cacheForTime_malformed_entry (env : Platform) (now : Int) (m : Medium)
    (key s : String) (hget : m.getItemThrows = false)
    (hs : findItem key m.items = some s) :
    (env.parse s = none ∨ env.parse s = some .null →
      cacheForTime.get env now m key = .ok (.null, m) ∧
        cacheForTime.isValid env now m key = .ok false) ∧
    (∀ item, s ≠ "" → env.parse s = some item → getProp item "expiry" = .ok .undefined →
      cacheForTime.isValid env now m key = .ok false ∧
        ∃ v, getProp item "value" = .ok v ∧ cacheForTime.get env now m key = .ok (v, m)) := by
  constructor
  · intro h
    by_cases hne : s = ""
    · simp [cacheForTime.get, cacheForTime.isValid, Medium.getItem, hget, hs, hne]
    · rcases h with h | h <;>
        simp [cacheForTime.get, cacheForTime.isValid, cacheForTime.getTry,
          cacheForTime.isValidTry, Medium.getItem, hget, hs, hne, h, getProp]
  · intro item hne hparse hexp
    have hval : ∃ v, getProp item "value" = .ok v := by
      cases item <;> simp [getProp] at hexp ⊢
    obtain ⟨v, hv⟩ := hval
    refine ⟨?_, v, hv, ?_⟩
    · simp [cacheForTime.isValid, cacheForTime.isValidTry, Medium.getItem, hget, hs, hne,
        hparse, hexp, jsLt, toNumber]
    · simp [cacheForTime.get, cacheForTime.getTry, Medium.getItem, hget, hs, hne,
        hparse, hexp, hv, jsGt, toNumber]

/-- C3 as amended, on the stored strings `not json` and `{"value":1}`. -/
theorem cacheForTime_malformed_entry_witness :
    (cacheForTime.get es 7 (Medium.reliable [("a", "not json")]) "a" =
        .ok (.null, Medium.reliable [("a", "not json")]) ∧
      cacheForTime.isValid es 7 (Medium.reliable [("a", "not json")]) "a" = .ok false) ∧
    (cacheForTime.isValid es 7 (Medium.reliable [("a", "\x7b\"value\":1\x7d")]) "a" = .ok false ∧
      ∃ v, getProp (.obj [("value", .num 1)]) "value" = .ok v ∧
        cacheForTime.get es 7 (Medium.reliable [("a", "\x7b\"value\":1\x7d")]) "a" =
          .ok (v, Medium.reliable [("a", "\x7b\"value\":1\x7d")])) :=
  ⟨(cacheForTime_malformed_entry es 7 (Medium.reliable [("a", "not json")]) "a" "not json"
      rfl rfl).1 (Or.inl rfl),
    (cacheForTime_malformed_entry es 7 (Medium.reliable [("a", "\x7b\"value\":1\x7d")]) "a"
      "\x7b\"value\":1\x7d" rfl rfl).2 (.obj [("value", .num 1)]) (by decide) rfl rfl⟩

/-- C4 as stated fails: on a medium whose methods throw, `set`, `get`,
`isValid` and `remove` all end with the medium's exception. -/
theorem cacheForTime_propagates_storage_failure :
    cacheForTime.set es 0 (Medium.failing []) "a" (.num 1) 1000 = .error .domException ∧
      cacheForTime.get es 0 (Medium.failing []) "a" = .error .domException ∧
      cacheForTime.isValid es 0 (Medium.failing []) "a" = .error .domException ∧
      cacheForTime.remove (Medium.failing []) "a" = .error .domException :=
  ⟨rfl, rfl, rfl, rfl⟩

/-- C4 as amended: the only exception of the medium that `cacheForTime` keeps
from the caller is one thrown by `removeItem` during the eviction inside `get`
(whenever `getItem` succeeds, `get` and `isValid` return normally); an
exception of `setItem` ends `set`, one of `getItem` ends `get` and `isValid`,
and one of `removeItem` ends `remove`. -/
theorem cacheForTime_storage_failure (env : Platform) (now : Int) (m : Medium)
    (key : String) (value : JSVal) (ttl : Int) :
    (m.getItemThrows = false →
      (∃ r, cacheForTime.get env now m key = .ok r) ∧
        ∃ b, cacheForTime.isValid env now m key = .ok b) ∧
    (m.getItemThrows = true →
      cacheForTime.get env now m key = .error .domException ∧
        cacheForTime.isValid env now m key = .error .domException) ∧
    (m.setItemThrows = true →
      cacheForTime.set env now m key value ttl = .error .domException) ∧
    (m.removeItemThrows = true → cacheForTime.remove m key = .error .domException) := by
  refine ⟨?_, ?_, ?_, ?_⟩
  · intro hget
    constructor
    · unfold cacheForTime.get Medium.getItem
      simp only [hget, Bool.false_eq_true, if_false]
      cases findItem key m.items with
      | none => exact ⟨_, rfl⟩
      | some s =>
        by_cases hne : s = ""
        · exact ⟨(.null, m), by simp [hne]⟩
        · cases hr : cacheForTime.getTry env now m key s with
          | ok r => exact ⟨r, by simp [hne, hr]⟩
          | error e => exact ⟨(.null, m), by simp [hne, hr]⟩
    · unfold cacheForTime.isValid Medium.getItem
      simp only [hget, Bool.false_eq_true, if_false]
      cases findItem key m.items with
      | none => exact ⟨_, rfl⟩
      | some s =>
        by_cases hne : s = ""
        · exact ⟨false, by simp [hne]⟩
        · cases hr : cacheForTime.isValidTry env now s with
          | ok r => exact ⟨r, by simp [hne, hr]⟩
          | error e => exact ⟨false, by simp [hne, hr]⟩
  · intro hget
    simp [cacheForTime.get, cacheForTime.isValid, Medium.getItem, hget]
  · intro hset
    simp [cacheForTime.set, Medium.setItem, hset]
  · intro hrm
    simp [cacheForTime.remove, Medium.removeItem, hrm]

/-- C4 as amended, on a medium whose `removeItem` throws and that holds an
entry expired at instant 5: `get` at instant 9 returns null normally, while
`remove` ends with the exception. -/
theorem cacheForTime_storage_failure_witness :
    ((∃ r, cacheForTime.get es 9
        { items := [("a", "\x7b\"value\":1,\"expiry\":5\x7d")], getItemThrows := false,
          setItemThrows := false, removeItemThrows := true } "a" = .ok r) ∧
      ∃ b, cacheForTime.isValid es 9
        { items := [("a", "\x7b\"value\":1,\"expiry\":5\x7d")], getItemThrows := false,
          setItemThrows := false, removeItemThrows := true } "a" = .ok b) ∧
    cacheForTime.remove
        { items := [("a", "\x7b\"value\":1,\"expiry\":5\x7d")], getItemThrows := false,
          setItemThrows := false, removeItemThrows := true } "a" = .error .domException :=
  ⟨(cacheForTime_storage_failure es 9
      { items := [("a", "\x7b\"value\":1,\"expiry\":5\x7d")], getItemThrows := false,
        setItemThrows := false, removeItemThrows := true } "a" .null 0).1 rfl,
    (cacheForTime_storage_failure es 9
      { items := [("a", "\x7b\"value\":1,\"expiry\":5\x7d")], getItemThrows := false,
        setItemThrows := false, removeItemThrows := true } "a" .null 0).2.2.2 rfl⟩

/-! ## Properties of `memoizer` -/

section MemoizerProperties

variable {A K W : Type} [DecidableEq K]

theorem mapHas_mapSet (key : K) (v : JSVal) (cache : List (K × JSVal)) :
    mapHas key (mapSet key v cache) = true := by
  induction cache with
  | nil => simp [mapSet, mapHas]
  | cons hd tl ih =>
    obtain ⟨k, w⟩ := hd
    by_cases h : k = key
    · simp [mapSet, mapHas, h]
    · simp [mapSet, mapHas, h, ih]

theorem mapGet_mapSet (key : K) (v : JSVal) (cache : List (K × JSVal)) :
    mapGet key (mapSet key v cache) = v := by
  induction cache with
  | nil => simp [mapSet, mapGet]
  | cons hd tl ih =>
    obtain ⟨k, w⟩ := hd
    by_cases h : k = key
    · simp [mapSet, mapGet, h]
    · simp [mapSet, mapGet, h, ih]

theorem mapHas_mapDelete_self (key : K) (cache : List (K × JSVal)) :
    mapHas key (mapDelete key cache) = false := by
  induction cache with
  | nil => simp [mapDelete, mapHas]
  | cons hd tl ih =>
    obtain ⟨k, w⟩ := hd
    by_cases h : k = key
    · simp [mapDelete, h, ih]
    · simp [mapDelete, mapHas, h, ih]

theorem mapHas_mapDelete_other (key other : K) (h : key ≠ other) (cache : List (K × JSVal)) :
    mapHas other (mapDelete key cache) = mapHas other cache := by
  induction cache with
  | nil => simp [mapDelete]
  | cons hd tl ih =>
    obtain ⟨k, w⟩ := hd
    by_cases hk : k = key
    · have hko : ¬ k = other := fun e => h (hk.symm.trans e)
      simp [mapDelete, mapHas, hk, ih, h]
    · by_cases ho : k = other
      · subst ho
        simp [mapDelete, mapHas, hk]
      · simp [mapDelete, mapHas, hk, ho, ih]

theorem mapGet_mapDelete_other (key other : K) (h : key ≠ other) (cache : List (K × JSVal)) :
    mapGet other (mapDelete key cache) = mapGet other cache := by
  induction cache with
  | nil => simp [mapDelete]
  | cons hd tl ih =>
    obtain ⟨k, w⟩ := hd
    by_cases hk : k = key
    · simp [mapDelete, mapGet, hk, ih, h]
    · by_cases ho : k = other
      · subst ho
        simp [mapDelete, mapGet, hk]
      · simp [mapDelete, mapGet, hk, ho, ih]

/-- Once the key is cached, every further call returns the cached value and
leaves the closure state, the invocation count included, as it is. -/
theorem callTimes_cached (fn : A → W → Except JSError JSVal × W) (keyResolver : A → K)
    (a : A) (n : Nat) (st : MemoState K W) (h : mapHas (keyResolver a) st.cache = true) :
    callTimes fn keyResolver a n st =
      (List.replicate n (.ok (mapGet (keyResolver a) st.cache)), st) := by
  induction n with
  | zero => rfl
  | succ n ih =>
    have hcall : memoized fn keyResolver st a =
        (.ok (mapGet (keyResolver a) st.cache), st) := by
      simp [memoized, h]
    simp [callTimes, hcall, ih, List.replicate_succ]

/-- C5: when the key of `a` is not yet cached and the first call returns
normally with result `r` (any value, `undefined` included), `N ≥ 1` calls
in a row with `a` all return `r`, and the wrapped computation is invoked
exactly once over the `N` calls. -/
theorem memoized_repeated_calls (fn : A → W → Except JSError JSVal × W)
    (keyResolver : A → K) (a : A) (N : Nat) (st : MemoState K W) (r : JSVal) (w : W)
    (hN : 1 ≤ N) (hfresh : memoized.has keyResolver st a = false)
    (hfn : fn a st.world = (.ok r, w)) :
    (callTimes fn keyResolver a N st).1 = List.replicate N (.ok r) ∧
      (callTimes fn keyResolver a N st).2.fnCalls = st.fnCalls + 1 ∧
      (memoized fn keyResolver st a).2.fnCalls = st.fnCalls + 1 := by
  obtain ⟨n, rfl⟩ : ∃ n, N = n + 1 := ⟨N - 1, by omega⟩
  have hfresh1 : mapHas (keyResolver a) st.cache = false := hfresh
  have hcall : memoized fn keyResolver st a =
      (.ok r, { cache := mapSet (keyResolver a) r st.cache, world := w,
                fnCalls := st.fnCalls + 1 }) := by
    simp [memoized, hfresh1, hfn]
  have hrest := callTimes_cached fn keyResolver a n
    { cache := mapSet (keyResolver a) r st.cache, world := w, fnCalls := st.fnCalls + 1 }
    (mapHas_mapSet _ _ _)
  simp only [mapGet_mapSet] at hrest
  simp [callTimes, hcall, hrest, List.replicate_succ]

/-- C5 on a computation that returns `undefined` and counts its invocations
in the world: three calls with the argument 42 on a new memoized function. -/
theorem memoized_repeated_calls_witness :
    (callTimes (fun (_ : Int) (w : Nat) => (Except.ok JSVal.undefined, w + 1))
        (fun (x : Int) => x) 42 3 (memoizer 0)).1
        = List.replicate 3 (.ok .undefined) ∧
      (callTimes (fun (_ : Int) (w : Nat) => (Except.ok JSVal.undefined, w + 1))
        (fun (x : Int) => x) 42 3 (memoizer 0)).2.fnCalls = (memoizer 0 : MemoState Int Nat).fnCalls + 1 ∧
      (memoized (fun (_ : Int) (w : Nat) => (Except.ok JSVal.undefined, w + 1))
        (fun (x : Int) => x) (memoizer 0) 42).2.fnCalls
          = (memoizer 0 : MemoState Int Nat).fnCalls + 1 :=
  memoized_repeated_calls (fun (_ : Int) (w : Nat) => (Except.ok JSVal.undefined, w + 1))
    (fun (x : Int) => x) 42 3 (memoizer 0) .undefined 1 (by decide) rfl rfl

/-- C6: for argument lists `a` and `b` with different keys, after
`memoized.delete(a)`: `has(a)` is false and the next call with `a` invokes
the computation; `has(b)` and the result cached for `b` are as before the
delete, and a call with `b` returns what it returned before. -/
theorem memoized_delete_frame (fn : A → W → Except JSError JSVal × W)
    (keyResolver : A → K) (st : MemoState K W) (a b : A)
    (hab : keyResolver a ≠ keyResolver b) :
    memoized.has keyResolver (memoized.delete keyResolver st a).2 a = false ∧
      (memoized fn keyResolver (memoized.delete keyResolver st a).2 a).2.fnCalls
        = (memoized.delete keyResolver st a).2.fnCalls + 1 ∧
      memoized.has keyResolver (memoized.delete keyResolver st a).2 b
        = memoized.has keyResolver st b ∧
      mapGet (keyResolver b) (memoized.delete keyResolver st a).2.cache
        = mapGet (keyResolver b) st.cache ∧
      (memoized fn keyResolver (memoized.delete keyResolver st a).2 b).1
        = (memoized fn keyResolver st b).1 := by
  have h1 := mapHas_mapDelete_self (keyResolver a) st.cache
  have h2 := mapHas_mapDelete_other (keyResolver a) (keyResolver b) hab st.cache
  have h3 := mapGet_mapDelete_other (keyResolver a) (keyResolver b) hab st.cache
  refine ⟨h1, ?_, h2, h3, ?_⟩
  · simp only [memoized, memoized.delete, h1]
    rcases fn a st.world with ⟨r | r, w⟩ <;> simp
  · simp only [memoized, memoized.delete, h2, h3]
    by_cases hb : mapHas (keyResolver b) st.cache = true
    · simp [hb]
    · simp only [hb]
      rcases fn b st.world with ⟨r | r, w⟩ <;> simp

/-- C6 on a closure that has cached the results for 1 and 2: `delete(1)`. -/
theorem memoized_delete_frame_witness :
    memoized.has (fun (x : Int) => x)
        (memoized.delete (fun (x : Int) => x)
          ({ cache := [(1, .num 10), (2, .num 20)], world := (), fnCalls := 2 } :
            MemoState Int Unit) 1).2 1 = false ∧
      (memoized (fun (x : Int) (_ : Unit) => (Except.ok (JSVal.num (10 * x)), ()))
        (fun (x : Int) => x)
        (memoized.delete (fun (x : Int) => x)
          ({ cache := [(1, .num 10), (2, .num 20)], world := (), fnCalls := 2 } :
            MemoState Int Unit) 1).2 1).2.fnCalls
        = (memoized.delete (fun (x : Int) => x)
          ({ cache := [(1, .num 10), (2, .num 20)], world := (), fnCalls := 2 } :
            MemoState Int Unit) 1).2.fnCalls + 1 ∧
      memoized.has (fun (x : Int) => x)
        (memoized.delete (fun (x : Int) => x)
          ({ cache := [(1, .num 10), (2, .num 20)], world := (), fnCalls := 2 } :
            MemoState Int Unit) 1).2 2
        = memoized.has (fun (x : Int) => x)
          ({ cache := [(1, .num 10), (2, .num 20)], world := (), fnCalls := 2 } :
            MemoState Int Unit) 2 ∧
      mapGet 2 (memoized.delete (fun (x : Int) => x)
          ({ cache := [(1, .num 10), (2, .num 20)], world := (), fnCalls := 2 } :
            MemoState Int Unit) 1).2.cache
        = mapGet 2 ({ cache := [(1, .num 10), (2, .num 20)], world := (), fnCalls := 2 } :
            MemoState Int Unit).cache ∧
      (memoized (fun (x : Int) (_ : Unit) => (Except.ok (JSVal.num (10 * x)), ()))
        (fun (x : Int) => x)
        (memoized.delete (fun (x : Int) => x)
          ({ cache := [(1, .num 10), (2, .num 20)], world := (), fnCalls := 2 } :
            MemoState Int Unit) 1).2 2).1
        = (memoized (fun (x : Int) (_ : Unit) => (Except.ok (JSVal.num (10 * x)), ()))
            (fun (x : Int) => x)
            ({ cache := [(1, .num 10), (2, .num 20)], world := (), fnCalls := 2 } :
              MemoState Int Unit) 2).1 :=
  memoized_delete_frame (fun (x : Int) (_ : Unit) => (Except.ok (JSVal.num (10 * x)), ()))
    (fun (x : Int) => x)
    ({ cache := [(1, .num 10), (2, .num 20)], world := (), fnCalls := 2 } : MemoState Int Unit)
    1 2 (by decide)

end MemoizerProperties

/-! ## Properties of `stateStore` -/

section StoreProperties

variable {S P : Type}

/-- Dispatching a name for which `reducers[action]` is falsy only logs a
warning: the state, the listeners and the record of invocations stay as they
are, and the call ends normally. -/
theorem dispatch_falsy (cfg : Config S P) (fuel : Nat) (st : Store S) (action : String)
    (payload : P) (h : cfg.reducers.get action = .falsy) :
    dispatch cfg (fuel + 1) st action payload =
      .done { st with warnings := st.warnings ++ ["Unknown action: " ++ action] } := by
  simp [dispatch, h]

/-- On a table without prototype members, a name that is not a key is falsy. -/
theorem get_of_not_key (r : Reducers S P) (action : String)
    (hkey : r.hasKey action = false) (hproto : r.inherited action = .falsy) :
    r.get action = .falsy := by
  unfold Reducers.hasKey at hkey
  unfold Reducers.get
  cases h : ownReducer action r.own with
  | none => simpa using hproto
  | some f => simp [h] at hkey

theorem get_of_key (r : Reducers S P) (action : String) (hkey : r.hasKey action = true) :
    ∃ f, ownReducer action r.own = some f ∧ r.get action = .callable f := by
  unfold Reducers.hasKey at hkey
  unfold Reducers.get
  cases h : ownReducer action r.own with
  | none => simp [h] at hkey
  | some f => exact ⟨f, rfl, rfl⟩

/-- C7, the code at the failing input: `toString` is not a key of the table
`{ set }`, yet `dispatch('toString')` replaces the state 0 by the string
`[object Object]` and invokes the subscriber; and `dispatch('__proto__')`,
another name that is not a key, throws a `TypeError`. -/
theorem dispatch_inherited_name_changes_state :
    tableOfSet.hasKey "toString" = false ∧
      dispatch storeOfSet 3 (subscribe (stateStore storeOfSet) 0) "toString" .undefined =
        .done { state := .js (.str "[object Object]"), listeners := [some 0],
                log := [(0, .js (.str "[object Object]"))], warnings := [] } ∧
      tableOfSet.hasKey "__proto__" = false ∧
      dispatch storeOfSet 3 (subscribe (stateStore storeOfSet) 0) "__proto__" .undefined =
        .threw .typeError (subscribe (stateStore storeOfSet) 0) :=
  ⟨rfl, rfl, rfl, rfl⟩

/-- The body of a listener that makes only `subscribe` and `unsubscribe` calls
leaves the state and the record of invocations as they are. -/
theorem runCmds_passive (cfg : Config S P) :
    ∀ (fuel : Nat) (st : Store S) (cmds : List (Cmd P)) (st1 : Store S),
      (∀ c ∈ cmds, c.isPassive = true) → runCmds cfg fuel st cmds = .done st1 →
      st1.state = st.state ∧ st1.log = st.log := by
  intro fuel
  induction fuel with
  | zero =>
    intro st cmds st1 _ h
    simp [runCmds] at h
  | succ fuel ih =>
    intro st cmds st1 hp h
    cases cmds with
    | nil =>
      simp only [runCmds, Result.done.injEq] at h
      subst h
      exact ⟨rfl, rfl⟩
    | cons c rest =>
      have hrest : ∀ c ∈ rest, c.isPassive = true :=
        fun c hc => hp c (List.mem_cons_of_mem _ hc)
      have hc := hp c (List.mem_cons_self _ _)
      cases c with
      | dispatch action payload => simp [Cmd.isPassive] at hc
      | reset => simp [Cmd.isPassive] at hc
      | subscribe l =>
        simp only [runCmds] at h
        exact ih (subscribe st l) rest st1 hrest h
      | unsubscribe l =>
        simp only [runCmds] at h
        exact ih (unsubscribe st l) rest st1 hrest h

/-- A notification pass over listeners that call neither `dispatch` nor
`reset` leaves the state as it is and hands that state to every listener it
invokes. -/
theorem forEachFrom_passive (cfg : Config S P) (hp : cfg.passive) :
    ∀ (fuel : Nat) (st : Store S) (i : Nat) (st1 : Store S),
      forEachFrom cfg fuel st i = .done st1 →
      st1.state = st.state ∧
        ∃ extra, st1.log = st.log ++ extra ∧ ∀ e ∈ extra, e.2 = st.state := by
  intro fuel
  induction fuel with
  | zero =>
    intro st i st1 h
    simp [forEachFrom] at h
  | succ fuel ih =>
    intro st i st1 h
    rw [forEachFrom] at h
    cases hget : st.listeners.get? i with
    | none =>
      simp only [hget, Result.done.injEq] at h
      subst h
      exact ⟨rfl, [], by simp, by simp⟩
    | some entry =>
      cases entry with
      | none =>
        simp only [hget] at h
        exact ih st (i + 1) st1 h
      | some l =>
        simp only [hget] at h
        cases hrun : runCmds cfg fuel { st with log := st.log ++ [(l, st.state)] }
            (cfg.behaviour l st.log st.state) with
        | outOfFuel => simp [hrun] at h
        | threw e st2 => simp [hrun] at h
        | done st2 =>
          simp only [hrun] at h
          obtain ⟨hs2, hl2⟩ := runCmds_passive cfg fuel _ _ st2 (hp l st.log st.state) hrun
          obtain ⟨hs1, extra, hl1, hall⟩ := ih st2 (i + 1) st1 h
          refine ⟨hs1.trans hs2, (l, st.state) :: extra, ?_, ?_⟩
          · rw [hl1, hl2]
            simp
          · intro e he
            rcases List.mem_cons.mp he with rfl | he
            · rfl
            · rw [hall e he, hs2]

/-- C8 as amended: when no listener calls `dispatch` or `reset`, every value
handed to a listener during a dispatch of an action of the table equals
`getState()` right after that dispatch has returned. -/
theorem dispatch_notifies_final_state (cfg : Config S P) (hp : cfg.passive)
    (fuel : Nat) (st : Store S) (action : String) (payload : P) (st1 : Store S)
    (hkey : cfg.reducers.hasKey action = true)
    (h : dispatch cfg fuel st action payload = .done st1) :
    ∃ extra, st1.log = st.log ++ extra ∧ ∀ e ∈ extra, e.2 = getState st1 := by
  obtain ⟨f, _, hf⟩ := get_of_key cfg.reducers action hkey
  cases fuel with
  | zero => simp [dispatch] at h
  | succ fuel =>
    simp only [dispatch, hf] at h
    cases hred : f st.state payload with
    | error e => simp [hred] at h
    | ok s =>
      simp only [hred] at h
      obtain ⟨hs, extra, hl, hall⟩ := forEachFrom_passive cfg hp fuel _ 0 st1 h
      refine ⟨extra, hl, ?_⟩
      intro e he
      rw [hall e he]
      exact hs.symm

theorem storeUnsubscribing_passive : storeUnsubscribing.passive := by
  intro l log v c hc
  by_cases h : l = 0
  · simp [storeUnsubscribing, h] at hc
    subst hc
    rfl
  · simp [storeUnsubscribing, h] at hc

/-- C8 as stated fails: listener 0 dispatches `increment` when it receives 1.
During the outer dispatch of `increment` from the state 0 it receives 1 and,
in the nested pass, 2; `getState()` after the outer dispatch has returned is
2, which differs from the 1 it received. -/
theorem dispatch_reentrant_listener_sees_stale_state :
    dispatch storeReentrant 8 (subscribe (subscribe (stateStore storeReentrant) 0) 1)
        "increment" () =
      .done { state := 2, listeners := [some 0, some 1],
              log := [(0, 1), (0, 2), (1, 2), (1, 2)], warnings := [] } ∧
      tableOfIncrement.hasKey "increment" = true :=
  ⟨rfl, rfl⟩

/-- C8 as amended, on the counter store whose listener 0 unsubscribes listener
1: one dispatch of `increment` from the state 0. -/
theorem dispatch_notifies_final_state_witness :
    ∃ extra,
      ({ state := 1, listeners := [some 0, none], log := [(0, 1)], warnings := [] } :
          Store Int).log
        = (subscribe (subscribe (stateStore storeUnsubscribing) 0) 1).log ++ extra ∧
      ∀ e ∈ extra, e.2 = getState
        ({ state := 1, listeners := [some 0, none], log := [(0, 1)], warnings := [] } :
          Store Int) :=
  dispatch_notifies_final_state storeUnsubscribing storeUnsubscribing_passive 5
    (subscribe (subscribe (stateStore storeUnsubscribing) 0) 1) "increment" ()
    { state := 1, listeners := [some 0, none], log := [(0, 1)], warnings := [] } rfl rfl

/-- With listeners that call neither `dispatch` nor `reset`, and calls whose
names are keys of the table or are falsy in `reducers`, the state after a
sequence of dispatches is the left fold of the table's reducers over the
calls that name a key. -/
theorem dispatchAll_fold (cfg : Config S P) (hp : cfg.passive) (fuel : Nat) :
    ∀ (calls : List (String × P)) (st st1 : Store S),
      (∀ c ∈ calls, cfg.reducers.hasKey c.1 = false → cfg.reducers.inherited c.1 = .falsy) →
      dispatchAll cfg fuel st calls = .done st1 →
      foldKnown cfg.reducers st.state calls = some (getState st1) := by
  intro calls
  induction calls with
  | nil =>
    intro st st1 _ h
    simp only [dispatchAll, Result.done.injEq] at h
    subst h
    rfl
  | cons c rest ih =>
    intro st st1 hnames h
    obtain ⟨action, payload⟩ := c
    have hrest : ∀ c ∈ rest, cfg.reducers.hasKey c.1 = false →
        cfg.reducers.inherited c.1 = .falsy :=
      fun c hc => hnames c (List.mem_cons_of_mem _ hc)
    simp only [dispatchAll] at h
    cases hd : dispatch cfg fuel st action payload with
    | outOfFuel => simp [hd] at h
    | threw e st2 => simp [hd] at h
    | done st2 =>
      simp only [hd] at h
      have hfold := ih st2 st1 hrest h
      cases fuel with
      | zero => simp [dispatch] at hd
      | succ fuel =>
        cases hkey : cfg.reducers.hasKey action with
        | false =>
          have hfalsy := get_of_not_key cfg.reducers action hkey
            (hnames (action, payload) (List.mem_cons_self _ _) hkey)
          rw [dispatch_falsy cfg fuel st action payload hfalsy] at hd
          simp only [Result.done.injEq] at hd
          have hown : ownReducer action cfg.reducers.own = none := by
            unfold Reducers.hasKey at hkey
            cases ho : ownReducer action cfg.reducers.own with
            | none => rfl
            | some f => simp [ho] at hkey
          subst hd
          simpa [foldKnown, hown] using hfold
        | true =>
          obtain ⟨f, hown, hf⟩ := get_of_key cfg.reducers action hkey
          simp only [dispatch, hf] at hd
          cases hred : f st.state payload with
          | error e => simp [hred] at hd
          | ok s =>
            simp only [hred] at hd
            obtain ⟨hs, _⟩ := forEachFrom_passive cfg hp fuel _ 0 st2 hd
            simp only [foldKnown, hown, hred]
            have hs2 : st2.state = s := hs
            rw [← hs2]
            exact hfold

/-- C9, the code at the failing input: the only dispatch names `toString`,
which is not a key of the table `{ set }`, so the fold over the known-action
dispatches is the initial state 0; yet `getState()` afterwards is the string
`[object Object]`. -/
theorem dispatchAll_inherited_name_not_skipped :
    tableOfSet.hasKey "toString" = false ∧
      foldKnown tableOfSet (getState (stateStore storeOfSet)) [("toString", .undefined)] =
        some (.js (.num 0)) ∧
      dispatchAll storeOfSet 3 (stateStore storeOfSet) [("toString", .undefined)] =
        .done { state := .js (.str "[object Object]"), listeners := [], log := [],
                warnings := [] } :=
  ⟨rfl, rfl, rfl⟩

/-- C10 as stated fails: listeners 0 and then 1 are subscribed, and listener 0
calls the unsubscribe function of listener 1 when it is notified. The
dispatch of `increment` invokes listener 0 only: listener 1 is skipped in
that same pass. -/
theorem unsubscribe_during_pass_skips_listener :
    dispatch storeUnsubscribing 5 (subscribe (subscribe (stateStore storeUnsubscribing) 0) 1)
        "increment" () =
      .done { state := 1, listeners := [some 0, none], log := [(0, 1)], warnings := [] } ∧
    (1, 1) ∉ (dispatch storeUnsubscribing 5
      (subscribe (subscribe (stateStore storeUnsubscribing) 0) 1) "increment" ()).log :=
  ⟨rfl, by decide⟩

/-- C10 as amended: an unsubscribe made during a notification pass takes effect
at once. In a store whose listeners are `A` and then `B`, where `A` calls the
unsubscribe function of `B` whenever it is notified, a dispatch of an action
of the table invokes `A` only, and so does the next dispatch: `B` is skipped
in the same pass and from then on. -/
theorem unsubscribe_during_pass_immediate (cfg : Config S P) (A B : Nat) (hAB : A ≠ B)
    (hA : ∀ log v, cfg.behaviour A log v = [.unsubscribe B])
    (st : Store S) (hl : st.listeners = [some A, some B])
    (action : String) (payload : P) (f : S → P → Except JSError S) (s1 : S)
    (hf : cfg.reducers.get action = .callable f) (hs1 : f st.state payload = .ok s1)
    (action2 : String) (payload2 : P) (g : S → P → Except JSError S) (s2 : S)
    (hg : cfg.reducers.get action2 = .callable g) (hs2 : g s1 payload2 = .ok s2)
    (fuel : Nat) :
    dispatch cfg (fuel + 4) st action payload =
        .done { state := s1, listeners := [some A, none], log := st.log ++ [(A, s1)],
                warnings := st.warnings } ∧
      dispatch cfg (fuel + 4)
          { state := s1, listeners := [some A, none], log := st.log ++ [(A, s1)],
            warnings := st.warnings } action2 payload2 =
        .done { state := s2, listeners := [some A, none],
                log := st.log ++ [(A, s1), (A, s2)], warnings := st.warnings } := by
  have hBA : ¬ B = A := fun h => hAB h.symm
  constructor
  · simp [dispatch, forEachFrom, runCmds, unsubscribe, setDelete, hf, hs1, hl, hA, hAB, hBA]
  · simp [dispatch, forEachFrom, runCmds, unsubscribe, setDelete, hg, hs2, hA, hAB, hBA]

/-- C10 as amended, on the counter store with listeners 0 and 1: two
dispatches of `increment`. -/
theorem unsubscribe_during_pass_immediate_witness :
    dispatch storeUnsubscribing (1 + 4)
        (subscribe (subscribe (stateStore storeUnsubscribing) 0) 1) "increment" () =
        .done { state := 1, listeners := [some 0, none],
                log := (subscribe (subscribe (stateStore storeUnsubscribing) 0) 1).log ++ [(0, 1)],
                warnings := (subscribe (subscribe (stateStore storeUnsubscribing) 0) 1).warnings } ∧
      dispatch storeUnsubscribing (1 + 4)
          { state := 1, listeners := [some 0, none],
            log := (subscribe (subscribe (stateStore storeUnsubscribing) 0) 1).log ++ [(0, 1)],
            warnings := (subscribe (subscribe (stateStore storeUnsubscribing) 0) 1).warnings }
          "increment" () =
        .done { state := 2, listeners := [some 0, none],
                log := (subscribe (subscribe (stateStore storeUnsubscribing) 0) 1).log ++
                  [(0, 1), (0, 2)],
                warnings := (subscribe (subscribe (stateStore storeUnsubscribing) 0) 1).warnings } :=
  unsubscribe_during_pass_immediate storeUnsubscribing 0 1 (by decide) (fun _ _ => rfl)
    (subscribe (subscribe (stateStore storeUnsubscribing) 0) 1) rfl
    "increment" () (fun state _ => .ok (state + 1)) 1 rfl rfl
    "increment" () (fun state _ => .ok (state + 1)) 2 rfl rfl 1

/-- A pass over listeners that make no call into the store ends normally,
given fuel for each entry, and invokes the listeners of the set from entry `i`
on, in insertion order, each with the current state. -/
theorem forEachFrom_observers (cfg : Config S P)
    (hobs : ∀ l log v, cfg.behaviour l log v = []) :
    ∀ (n : Nat) (st : Store S) (i fuel : Nat),
      st.listeners.length - i = n → n + 1 ≤ fuel →
      forEachFrom cfg fuel st i =
        .done { st with
          log := st.log ++ (liveFrom st.listeners i).map (fun l => (l, st.state)) } := by
  intro n
  induction n with
  | zero =>
    intro st i fuel hn hfuel
    obtain ⟨f, rfl⟩ : ∃ f, fuel = f + 1 := ⟨fuel - 1, by omega⟩
    have hle : st.listeners.length ≤ i := by omega
    have hnone : st.listeners.get? i = none := List.get?_eq_none.mpr hle
    rw [forEachFrom]
    simp only [hnone]
    simp [liveFrom, List.drop_eq_nil_of_le hle]
  | succ n ih =>
    intro st i fuel hn hfuel
    obtain ⟨f, rfl⟩ : ∃ f, fuel = f + 1 := ⟨fuel - 1, by omega⟩
    have hlt : i < st.listeners.length := by omega
    have hsome : st.listeners.get? i = some (st.listeners.get ⟨i, hlt⟩) :=
      List.get?_eq_get hlt
    have hdrop : st.listeners.drop i = st.listeners.get ⟨i, hlt⟩ :: st.listeners.drop (i + 1) :=
      List.drop_eq_getElem_cons hlt
    rw [forEachFrom]
    simp only [hsome]
    cases hx : st.listeners.get ⟨i, hlt⟩ with
    | none =>
      have hlive : liveFrom st.listeners i = liveFrom st.listeners (i + 1) := by
        unfold liveFrom
        rw [hdrop, hx]
        rfl
      simp only []
      rw [ih st (i + 1) f (by omega) (by omega), hlive]
    | some l =>
      have hlive : liveFrom st.listeners i = l :: liveFrom st.listeners (i + 1) := by
        unfold liveFrom
        rw [hdrop, hx]
        rfl
      obtain ⟨g, rfl⟩ : ∃ g, f = g + 1 := ⟨f - 1, by omega⟩
      simp only [hobs, runCmds]
      rw [ih _ (i + 1) (g + 1) (by simpa using (by omega : st.listeners.length - (i + 1) = n))
        (by omega), hlive]
      simp

/-- A dispatch of a callable action on a store whose listeners make no call
into the store ends normally, given fuel for each entry of the listener set:
the state is the reducer's result and every registered listener is invoked
once, in insertion order, with that result. -/
theorem dispatch_observers (cfg : Config S P) (hobs : ∀ l log v, cfg.behaviour l log v = [])
    (st : Store S) (action : String) (payload : P) (f : S → P → Except JSError S) (s1 : S)
    (hf : cfg.reducers.get action = .callable f) (hs1 : f st.state payload = .ok s1)
    (fuel : Nat) (hfuel : st.listeners.length + 2 ≤ fuel) :
    dispatch cfg fuel st action payload =
      .done { state := s1, listeners := st.listeners,
              log := st.log ++ (liveFrom st.listeners 0).map (fun l => (l, s1)),
              warnings := st.warnings } := by
  obtain ⟨g, rfl⟩ : ∃ g, fuel = g + 1 := ⟨fuel - 1, by omega⟩
  simp only [dispatch, hf, hs1]
  rw [forEachFrom_observers cfg hobs st.listeners.length _ 0 g (by simp) (by omega)]

/-! ### Mutation of the listener set during a pass -/

theorem Store.evolvesTo_refl (st : Store S) : st.evolvesTo st :=
  ⟨⟨[], by simp⟩, le_refl _, fun _ _ _ h => h⟩

theorem Store.evolvesTo_trans {a b c : Store S} (hab : a.evolvesTo b) (hbc : b.evolvesTo c) :
    a.evolvesTo c := by
  obtain ⟨⟨e1, h1⟩, hlen1, hent1⟩ := hab
  obtain ⟨⟨e2, h2⟩, hlen2, hent2⟩ := hbc
  refine ⟨⟨e1 ++ e2, by rw [h2, h1, List.append_assoc]⟩, le_trans hlen1 hlen2, ?_⟩
  intro j l hj h
  exact hent1 j l hj (hent2 j l (lt_of_lt_of_le hj hlen1) h)

theorem evolvesTo_subscribe (st : Store S) (l : Nat) : st.evolvesTo (subscribe st l) := by
  refine ⟨⟨[], by simp [subscribe]⟩, ?_, ?_⟩
  · simp only [subscribe, setAdd]
    split <;> simp
  · intro j x hj h
    simp only [subscribe, setAdd] at h
    split at h
    · exact h
    · simpa [List.getElem?_append_left hj] using h

theorem evolvesTo_unsubscribe (st : Store S) (l : Nat) : st.evolvesTo (unsubscribe st l) := by
  refine ⟨⟨[], by simp [unsubscribe]⟩, by simp [unsubscribe, setDelete], ?_⟩
  intro j x _ h
  have h1 : st.listeners[j]? = some (some x) ∧ ¬x = l := by
    simpa [unsubscribe, setDelete] using h
  simpa using h1.1

/-- Every call into the store that ends normally leaves a store that the one
before the call evolves to. -/
theorem calls_evolve (cfg : Config S P) : ∀ fuel : Nat,
    (∀ st action payload st1, dispatch cfg fuel st action payload = .done st1 →
      st.evolvesTo st1) ∧
    (∀ st st1, reset cfg fuel st = .done st1 → st.evolvesTo st1) ∧
    (∀ st i st1, forEachFrom cfg fuel st i = .done st1 → st.evolvesTo st1) ∧
    (∀ st cmds st1, runCmds cfg fuel st cmds = .done st1 → st.evolvesTo st1) := by
  intro fuel
  induction fuel with
  | zero =>
    refine ⟨?_, ?_, ?_, ?_⟩
    · intro st action payload st1 h
      simp [dispatch] at h
    · intro st st1 h
      simp [reset] at h
    · intro st i st1 h
      simp [forEachFrom] at h
    · intro st cmds st1 h
      simp [runCmds] at h
  | succ fuel ih =>
    obtain ⟨ihd, ihr, ihf, ihc⟩ := ih
    refine ⟨?_, ?_, ?_, ?_⟩
    · intro st action payload st1 h
      rw [dispatch] at h
      cases hm : cfg.reducers.get action with
      | falsy =>
        simp only [hm, Result.done.injEq] at h
        subst h
        exact ⟨⟨[], by simp⟩, le_refl _, fun _ _ _ h => h⟩
      | notCallable => simp [hm] at h
      | callable f =>
        simp only [hm] at h
        cases hred : f st.state payload with
        | error e => simp [hred] at h
        | ok s =>
          simp only [hred] at h
          have hev := ihf { st with state := s } 0 st1 h
          exact hev
    · intro st st1 h
      rw [reset] at h
      have hev := ihf { st with state := cfg.initialState } 0 st1 h
      exact hev
    · intro st i st1 h
      rw [forEachFrom] at h
      cases hget : st.listeners.get? i with
      | none =>
        simp only [hget, Result.done.injEq] at h
        subst h
        exact Store.evolvesTo_refl _
      | some entry =>
        cases entry with
        | none =>
          simp only [hget] at h
          exact ihf st (i + 1) st1 h
        | some l =>
          simp only [hget] at h
          cases hrun : runCmds cfg fuel { st with log := st.log ++ [(l, st.state)] }
              (cfg.behaviour l st.log st.state) with
          | outOfFuel => simp [hrun] at h
          | threw e st2 => simp [hrun] at h
          | done st2 =>
            simp only [hrun] at h
            have h0 : st.evolvesTo { st with log := st.log ++ [(l, st.state)] } :=
              ⟨⟨[(l, st.state)], rfl⟩, le_refl _, fun _ _ _ h => h⟩
            exact Store.evolvesTo_trans h0
              (Store.evolvesTo_trans (ihc _ _ st2 hrun) (ihf st2 (i + 1) st1 h))
    · intro st cmds st1 h
      cases cmds with
      | nil =>
        simp only [runCmds, Result.done.injEq] at h
        subst h
        exact Store.evolvesTo_refl _
      | cons c rest =>
        cases c with
        | dispatch action payload =>
          simp only [runCmds] at h
          cases hd : dispatch cfg fuel st action payload with
          | outOfFuel => simp [hd] at h
          | threw e st2 => simp [hd] at h
          | done st2 =>
            simp only [hd] at h
            exact Store.evolvesTo_trans (ihd st action payload st2 hd) (ihc st2 rest st1 h)
        | reset =>
          simp only [runCmds] at h
          cases hd : reset cfg fuel st with
          | outOfFuel => simp [hd] at h
          | threw e st2 => simp [hd] at h
          | done st2 =>
            simp only [hd] at h
            exact Store.evolvesTo_trans (ihr st st2 hd) (ihc st2 rest st1 h)
        | subscribe l =>
          simp only [runCmds] at h
          exact Store.evolvesTo_trans (evolvesTo_subscribe st l) (ihc _ rest st1 h)
        | unsubscribe l =>
          simp only [runCmds] at h
          exact Store.evolvesTo_trans (evolvesTo_unsubscribe st l) (ihc _ rest st1 h)

/-- A pass that ends normally has invoked every listener that is in the set,
at entry `i` or later, when the pass ends. -/
theorem forEachFrom_invokes_registered (cfg : Config S P) :
    ∀ (fuel : Nat) (st : Store S) (i : Nat) (st1 : Store S),
      forEachFrom cfg fuel st i = .done st1 →
      ∃ extra, st1.log = st.log ++ extra ∧
        ∀ j l, i ≤ j → st1.listeners.get? j = some (some l) → ∃ v, (l, v) ∈ extra := by
  intro fuel
  induction fuel with
  | zero =>
    intro st i st1 h
    simp [forEachFrom] at h
  | succ fuel ih =>
    intro st i st1 h
    have hev := (calls_evolve cfg (fuel + 1)).2.2.1 st i st1 h
    rw [forEachFrom] at h
    cases hget : st.listeners.get? i with
    | none =>
      simp only [hget, Result.done.injEq] at h
      subst h
      refine ⟨[], by simp, ?_⟩
      intro j l hij hj
      have hlen : st.listeners.length ≤ i := List.get?_eq_none.mp hget
      have hnone : st.listeners.get? j = none := List.get?_eq_none.mpr (le_trans hlen hij)
      rw [hnone] at hj
      cases hj
    | some entry =>
      have hi : i < st.listeners.length := by
        by_contra hcon
        have hnone : st.listeners.get? i = none := List.get?_eq_none.mpr (by omega)
        rw [hnone] at hget
        cases hget
      cases entry with
      | none =>
        simp only [hget] at h
        obtain ⟨extra, hlog, hall⟩ := ih st (i + 1) st1 h
        refine ⟨extra, hlog, ?_⟩
        intro j l hij hj
        rcases Nat.eq_or_lt_of_le hij with rfl | hlt
        · have hback := hev.2.2 i l hi hj
          rw [hget] at hback
          cases hback
        · exact hall j l hlt hj
      | some l0 =>
        simp only [hget] at h
        cases hrun : runCmds cfg fuel { st with log := st.log ++ [(l0, st.state)] }
            (cfg.behaviour l0 st.log st.state) with
        | outOfFuel => simp [hrun] at h
        | threw e st2 => simp [hrun] at h
        | done st2 =>
          simp only [hrun] at h
          obtain ⟨⟨e1, hlog1⟩, _, _⟩ := (calls_evolve cfg fuel).2.2.2 _ _ st2 hrun
          obtain ⟨extra2, hlog2, hall⟩ := ih st2 (i + 1) st1 h
          refine ⟨(l0, st.state) :: (e1 ++ extra2), ?_, ?_⟩
          · rw [hlog2, hlog1]
            simp
          · intro j l hij hj
            rcases Nat.eq_or_lt_of_le hij with rfl | hlt
            · have hback := hev.2.2 i l hi hj
              rw [hget] at hback
              simp only [Option.some.injEq] at hback
              subst hback
              exact ⟨st.state, List.mem_cons_self _ _⟩
            · obtain ⟨v, hv⟩ := hall j l hlt hj
              exact ⟨v, List.mem_cons_of_mem _ (List.mem_append_right _ hv)⟩

theorem Store.silentFor_trans {L : Nat} {a b c : Store S} (hab : Store.silentFor L a b)
    (hbc : Store.silentFor L b c) : Store.silentFor L a c := by
  obtain ⟨_, e1, h1, hall1⟩ := hab
  obtain ⟨hout, e2, h2, hall2⟩ := hbc
  refine ⟨hout, e1 ++ e2, by rw [h2, h1, List.append_assoc], ?_⟩
  intro e he
  rcases List.mem_append.mp he with h | h
  · exact hall1 e h
  · exact hall2 e h

theorem silentFor_of_same (L : Nat) (a b : Store S) (hout : some L ∉ a.listeners)
    (hl : b.listeners = a.listeners) (hlog : b.log = a.log) : Store.silentFor L a b :=
  ⟨by rw [hl]; exact hout, [], by simp [hlog], by simp⟩

theorem not_mem_setAdd (L l : Nat) (ls : List (Option Nat)) (hne : l ≠ L)
    (hout : some L ∉ ls) : some L ∉ setAdd l ls := by
  unfold setAdd
  split
  · exact hout
  · intro h
    rcases List.mem_append.mp h with h | h
    · exact hout h
    · simp at h
      exact hne h.symm

theorem not_mem_setDelete (L l : Nat) (ls : List (Option Nat)) (hout : some L ∉ ls) :
    some L ∉ setDelete l ls := by
  unfold setDelete
  intro h
  obtain ⟨e, he, heq⟩ := List.mem_map.mp h
  by_cases hel : e = some l
  · simp [hel] at heq
  · simp only [hel, if_false] at heq
    rw [heq] at he
    exact hout he

/-- While no listener subscribes `L`, a listener `L` that is out of the set
stays out of it and is not invoked by any call into the store, nested calls
included. -/
theorem removed_listener_stays_silent (cfg : Config S P) (L : Nat)
    (hno : ∀ l log v, Cmd.subscribe L ∉ cfg.behaviour l log v) : ∀ fuel : Nat,
    (∀ st action payload st1, some L ∉ st.listeners →
      dispatch cfg fuel st action payload = .done st1 → Store.silentFor L st st1) ∧
    (∀ st st1, some L ∉ st.listeners → reset cfg fuel st = .done st1 →
      Store.silentFor L st st1) ∧
    (∀ st i st1, some L ∉ st.listeners → forEachFrom cfg fuel st i = .done st1 →
      Store.silentFor L st st1) ∧
    (∀ st cmds st1, some L ∉ st.listeners → Cmd.subscribe L ∉ cmds →
      runCmds cfg fuel st cmds = .done st1 → Store.silentFor L st st1) := by
  intro fuel
  induction fuel with
  | zero =>
    refine ⟨?_, ?_, ?_, ?_⟩
    · intro st action payload st1 _ h
      simp [dispatch] at h
    · intro st st1 _ h
      simp [reset] at h
    · intro st i st1 _ h
      simp [forEachFrom] at h
    · intro st cmds st1 _ _ h
      simp [runCmds] at h
  | succ fuel ih =>
    obtain ⟨ihd, ihr, ihf, ihc⟩ := ih
    refine ⟨?_, ?_, ?_, ?_⟩
    · intro st action payload st1 hout h
      rw [dispatch] at h
      cases hm : cfg.reducers.get action with
      | falsy =>
        simp only [hm, Result.done.injEq] at h
        subst h
        exact silentFor_of_same L st _ hout rfl rfl
      | notCallable => simp [hm] at h
      | callable f =>
        simp only [hm] at h
        cases hred : f st.state payload with
        | error e => simp [hred] at h
        | ok s =>
          simp only [hred] at h
          have hq := ihf { st with state := s } 0 st1 hout h
          exact hq
    · intro st st1 hout h
      rw [reset] at h
      have hq := ihf { st with state := cfg.initialState } 0 st1 hout h
      exact hq
    · intro st i st1 hout h
      rw [forEachFrom] at h
      cases hget : st.listeners.get? i with
      | none =>
        simp only [hget, Result.done.injEq] at h
        subst h
        exact silentFor_of_same L st st hout rfl rfl
      | some entry =>
        cases entry with
        | none =>
          simp only [hget] at h
          exact ihf st (i + 1) st1 hout h
        | some l =>
          simp only [hget] at h
          have hlL : l ≠ L := by
            intro heq
            subst heq
            exact hout (List.get?_mem hget)
          cases hrun : runCmds cfg fuel { st with log := st.log ++ [(l, st.state)] }
              (cfg.behaviour l st.log st.state) with
          | outOfFuel => simp [hrun] at h
          | threw e st2 => simp [hrun] at h
          | done st2 =>
            simp only [hrun] at h
            have h0 : Store.silentFor L st { st with log := st.log ++ [(l, st.state)] } :=
              ⟨hout, [(l, st.state)], rfl, by simpa using hlL⟩
            have h1 := ihc { st with log := st.log ++ [(l, st.state)] } _ st2 hout
              (hno l st.log st.state) hrun
            have h2 := ihf st2 (i + 1) st1 h1.1 h
            exact Store.silentFor_trans h0 (Store.silentFor_trans h1 h2)
    · intro st cmds st1 hout hcmds h
      cases cmds with
      | nil =>
        simp only [runCmds, Result.done.injEq] at h
        subst h
        exact silentFor_of_same L st st hout rfl rfl
      | cons c rest =>
        have hrest : Cmd.subscribe L ∉ rest := fun hm => hcmds (List.mem_cons_of_mem _ hm)
        cases c with
        | dispatch action payload =>
          simp only [runCmds] at h
          cases hd : dispatch cfg fuel st action payload with
          | outOfFuel => simp [hd] at h
          | threw e st2 => simp [hd] at h
          | done st2 =>
            simp only [hd] at h
            have h1 := ihd st action payload st2 hout hd
            exact Store.silentFor_trans h1 (ihc st2 rest st1 h1.1 hrest h)
        | reset =>
          simp only [runCmds] at h
          cases hd : reset cfg fuel st with
          | outOfFuel => simp [hd] at h
          | threw e st2 => simp [hd] at h
          | done st2 =>
            simp only [hd] at h
            have h1 := ihr st st2 hout hd
            exact Store.silentFor_trans h1 (ihc st2 rest st1 h1.1 hrest h)
        | subscribe l =>
          simp only [runCmds] at h
          have hlL : l ≠ L := by
            intro heq
            subst heq
            exact hcmds (List.mem_cons_self _ _)
          have hout1 : some L ∉ (subscribe st l).listeners :=
            not_mem_setAdd L l st.listeners hlL hout
          have h1 : Store.silentFor L st (subscribe st l) := ⟨hout1, [], by simp [subscribe], by simp⟩
          exact Store.silentFor_trans h1 (ihc _ rest st1 hout1 hrest h)
        | unsubscribe l =>
          simp only [runCmds] at h
          have hout1 : some L ∉ (unsubscribe st l).listeners :=
            not_mem_setDelete L l st.listeners hout
          have h1 : Store.silentFor L st (unsubscribe st l) :=
            ⟨hout1, [], by simp [unsubscribe], by simp⟩
          exact Store.silentFor_trans h1 (ihc _ rest st1 hout1 hrest h)

theorem storeUnsubscribing_never_subscribes (L : Nat) :
    ∀ l log v, Cmd.subscribe L ∉ storeUnsubscribing.behaviour l log v := by
  intro l log v h
  by_cases hl : l = 0 <;> simp [storeUnsubscribing, hl] at h

/-- C11 as stated fails. First run: listener 0 calls its own unsubscribe
function during the pass and subscribes itself again; the same pass, after
listener 1, invokes listener 0 a second time. Second and third run: listener
1 is added during a pass and never unsubscribed, yet the next pass, aborted
by the exception of a reducer that listener 0 dispatches, does not invoke
it. -/
theorem listener_removed_or_added_during_pass :
    dispatch storeResubscribing 8 (subscribe (subscribe (stateStore storeResubscribing) 0) 1)
        "increment" () =
      .done { state := 1, listeners := [none, some 1, some 0],
              log := [(0, 1), (1, 1), (0, 1)], warnings := [] } ∧
    dispatch storeAborting 8 (subscribe (stateStore storeAborting) 0) "increment" () =
      .done { state := 1, listeners := [some 0, some 1], log := [(0, 1), (1, 1)],
              warnings := [] } ∧
    dispatch storeAborting 8
        { state := 1, listeners := [some 0, some 1], log := [(0, 1), (1, 1)], warnings := [] }
        "increment" () =
      .threw .typeError
        { state := 2, listeners := [some 0, some 1], log := [(0, 1), (1, 1), (0, 2)],
          warnings := [] } :=
  ⟨rfl, rfl, rfl⟩

/-- C11 as amended: calling the unsubscribe function of `L` during a pass does
not throw (the listener's body goes on with `L` out of the set), and while no
listener subscribes `L` again, `L` is not invoked in the rest of that pass,
nested calls included; and a pass that runs to completion has invoked every
listener that is in the set when it ends, so a listener added during an
earlier pass is invoked in it unless it has been unsubscribed. -/
theorem listener_set_mutation_during_pass (cfg : Config S P) (L : Nat)
    (hno : ∀ l log v, Cmd.subscribe L ∉ cfg.behaviour l log v) :
    (∀ (st : Store S), some L ∉ (unsubscribe st L).listeners ∧
      ∀ fuel rest, runCmds cfg (fuel + 1) st (.unsubscribe L :: rest) =
        runCmds cfg fuel (unsubscribe st L) rest) ∧
    (∀ fuel (st : Store S) i st1, some L ∉ st.listeners →
      forEachFrom cfg fuel st i = .done st1 →
      ∃ extra, st1.log = st.log ++ extra ∧ ∀ e ∈ extra, e.1 ≠ L) ∧
    (∀ fuel (st : Store S) st1, forEachFrom cfg fuel st 0 = .done st1 →
      ∃ extra, st1.log = st.log ++ extra ∧
        ∀ l, some l ∈ st1.listeners → ∃ v, (l, v) ∈ extra) := by
  refine ⟨?_, ?_, ?_⟩
  · intro st
    constructor
    · intro h
      have h1 : some L ∈ setDelete L st.listeners := h
      unfold setDelete at h1
      obtain ⟨e, _, heq⟩ := List.mem_map.mp h1
      by_cases hel : e = some L <;> simp [hel] at heq
    · intro fuel rest
      simp [runCmds]
  · intro fuel st i st1 hout h
    exact ((removed_listener_stays_silent cfg L hno fuel).2.2.1 st i st1 hout h).2
  · intro fuel st st1 h
    obtain ⟨extra, hlog, hall⟩ := forEachFrom_invokes_registered cfg fuel st 0 st1 h
    refine ⟨extra, hlog, ?_⟩
    intro l hl
    obtain ⟨j, hj⟩ := List.mem_iff_get?.mp hl
    exact hall j l (Nat.zero_le _) hj

/-- C11 as amended, on the counter store whose listener 0 has just called the
unsubscribe function of listener 1: the rest of the pass, from entry 1 on. -/
theorem listener_set_mutation_during_pass_witness :
    ∃ extra,
      ({ state := 1, listeners := [some 0, none], log := [(0, 1)], warnings := [] } :
          Store Int).log =
        ({ state := 1, listeners := [some 0, none], log := [(0, 1)], warnings := [] } :
          Store Int).log ++ extra ∧
      ∀ e ∈ extra, e.1 ≠ 1 :=
  (listener_set_mutation_during_pass storeUnsubscribing 1
      (storeUnsubscribing_never_subscribes 1)).2.1 5
    { state := 1, listeners := [some 0, none], log := [(0, 1)], warnings := [] } 1
    { state := 1, listeners := [some 0, none], log := [(0, 1)], warnings := [] }
    (by decide) rfl

end StoreProperties

/-! ## Properties of `cloneObj` -/

theorem putOwn_fresh (key : String) (v : Val) (props : List (String × Val))
    (h : key ∉ props.map Prod.fst) : putOwn key v props = props ++ [(key, v)] := by
  induction props with
  | nil => rfl
  | cons hd tl ih =>
    obtain ⟨k, w⟩ := hd
    simp only [List.map_cons, List.mem_cons, not_or] at h
    have hk : ¬ k = key := fun e => h.1 e.symm
    simp [putOwn, hk, ih h.2]

mutual
theorem cloneObj_plain (sc : Option (Val → Option Val))
    (hsc : ∀ f, sc = some f → ∀ v w, f v = some w → w = v) :
    ∀ x : Val, x.plain = true → cloneObj sc x = x
  | .undefined, _ => rfl
  | .null, _ => rfl
  | .bool _, _ => rfl
  | .num _, _ => rfl
  | .nan, _ => rfl
  | .str _, _ => rfl
  | .fn _, _ => rfl
  | .date ms, _ => by
    rw [cloneObj]
    cases h : tryStructuredClone sc (.date ms) with
    | none => rfl
    | some w =>
      cases sc with
      | none => simp [tryStructuredClone] at h
      | some f => exact hsc f rfl _ _ h
  | .proto p, h => by simp [Val.plain] at h
  | .arr xs, hp => by
    rw [cloneObj]
    cases h : tryStructuredClone sc (.arr xs) with
    | none =>
      rw [Val.plain] at hp
      simp [cloneElems_plain sc hsc xs hp]
    | some w =>
      cases sc with
      | none => simp [tryStructuredClone] at h
      | some f => exact hsc f rfl _ _ h
  | .obj props, hp => by
    rw [cloneObj]
    cases h : tryStructuredClone sc (.obj props) with
    | none =>
      rw [Val.plain] at hp
      simp [cloneProps_plain sc hsc props [] [] (by simp) hp]
    | some w =>
      cases sc with
      | none => simp [tryStructuredClone] at h
      | some f => exact hsc f rfl _ _ h
theorem cloneElems_plain (sc : Option (Val → Option Val))
    (hsc : ∀ f, sc = some f → ∀ v w, f v = some w → w = v) :
    ∀ xs : List Val, plainElems xs = true → cloneElems sc xs = xs
  | [], _ => rfl
  | x :: rest, hp => by
    simp only [plainElems, Bool.and_eq_true] at hp
    simp [cloneElems, cloneObj_plain sc hsc x hp.1, cloneElems_plain sc hsc rest hp.2]
theorem cloneProps_plain (sc : Option (Val → Option Val))
    (hsc : ∀ f, sc = some f → ∀ v w, f v = some w → w = v) :
    ∀ (props : List (String × Val)) (seen : List String) (clone : List (String × Val)),
      (∀ k, k ∈ clone.map Prod.fst → k ∈ seen) → plainProps seen props = true →
      cloneProps sc props clone = clone ++ props
  | [], _, clone, _, _ => by simp [cloneProps]
  | (key, v) :: rest, seen, clone, hseen, hp => by
    simp only [plainProps, Bool.and_eq_true, decide_eq_true_eq] at hp
    obtain ⟨⟨⟨hkey, hfresh⟩, hv⟩, hrest⟩ := hp
    have hnot : key ∉ clone.map Prod.fst := fun hm => hfresh (hseen key hm)
    have hw : writeProp clone key (cloneObj sc v) = clone ++ [(key, v)] := by
      simp [writeProp, hkey, cloneObj_plain sc hsc v hv, putOwn_fresh key v clone hnot]
    rw [cloneProps, hw, cloneProps_plain sc hsc rest (key :: seen) (clone ++ [(key, v)]) ?_ hrest]
    · simp
    · intro k hk
      simp only [List.map_append, List.map_cons, List.map_nil, List.mem_append,
        List.mem_singleton] at hk
      rcases hk with hk | hk
      · exact List.mem_cons_of_mem _ (hseen k hk)
      · rw [hk]; exact List.mem_cons_self _ _
end


theorem cloneObjHeap_self_reference
    (sc : Option (List HObj → HVal → Option (HVal × List HObj)))
    (hsc : ∀ f, sc = some f → ∀ heap v, f heap v = none) :
    ∀ (fuel : Nat) (heap : List HObj), heap.get? 0 = some (.obj [("self", .ref 0)]) →
      cloneObjHeap sc fuel heap (.ref 0) = none := by
  intro fuel
  induction fuel with
  | zero => intro heap _; rfl
  | succ fuel ih =>
    intro heap h0
    have hsc0 : tryStructuredCloneHeap sc heap (.ref 0) = none := by
      cases hs : sc with
      | none => rfl
      | some f => exact hsc f hs heap (.ref 0)
    have hlen : 0 < heap.length := by
      by_contra hcon
      have : heap.get? 0 = none := List.get?_eq_none.mpr (by omega)
      rw [this] at h0
      cases h0
    have h1 : (heap ++ [HObj.obj []]).get? 0 = some (.obj [("self", .ref 0)]) := by
      simpa [List.getElem?_append_left hlen] using h0
    simp only [cloneObjHeap, hsc0, h0, cloneFields, ih _ h1]


/-- C12, the code at the failing input: the object parsed from
`{"__proto__": {"a": 1}, "b": 2}` has the own keys `__proto__` and `b`; on
the manual path (no `structuredClone`, or one that throws) the clone has the
own key `b` only, because `clone['__proto__'] = ...` reaches the inherited
setter; a `structuredClone` that succeeds keeps both keys. -/
theorem cloneObj_drops_own_proto_key :
    cloneObj none (.obj [("__proto__", .obj [("a", .num 1)]), ("b", .num 2)]) =
        .obj [("b", .num 2)] ∧
      cloneObj (some (fun _ => none)) (.obj [("__proto__", .obj [("a", .num 1)]), ("b", .num 2)]) =
        .obj [("b", .num 2)] ∧
      cloneObj (some (fun v => some v)) (.obj [("__proto__", .obj [("a", .num 1)]), ("b", .num 2)]) =
        .obj [("__proto__", .obj [("a", .num 1)]), ("b", .num 2)] :=
  ⟨rfl, rfl, rfl⟩

/-- C13, the code at the failing input. For `x = {}; x.self = x`, when
`structuredClone` is missing or throws, `cloneObj(x)` does not return for
any bound on the depth of the recursion. And for `{ a: s, b: s }` with one
shared object `s`, the clone holds two different copies of `s`, at the
addresses 3 and 4. -/
theorem cloneObjHeap_cyclic_input_never_returns :
    (∀ fuel, cloneObjHeap none fuel [.obj [("self", .ref 0)]] (.ref 0) = none) ∧
      (∀ fuel, cloneObjHeap (some (fun _ _ => none)) fuel [.obj [("self", .ref 0)]] (.ref 0) =
        none) ∧
      cloneObjHeap none 3 [.obj [("a", .ref 1), ("b", .ref 1)], .obj [("n", .num 1)]] (.ref 0) =
        some (.ref 2,
          [.obj [("a", .ref 1), ("b", .ref 1)], .obj [("n", .num 1)],
           .obj [("a", .ref 3), ("b", .ref 4)], .obj [("n", .num 1)], .obj [("n", .num 1)]]) :=
  ⟨fun fuel => cloneObjHeap_self_reference none (fun _ h => by cases h) fuel _ rfl,
    fun fuel => cloneObjHeap_self_reference (some (fun _ _ => none))
      (fun f h heap v => by cases h; rfl) fuel _ rfl,
    rfl⟩

/-! ## Properties of `checkObjState` -/

theorem lookupOwn_putOwn_self (key : String) (v : Val) (props : List (String × Val)) :
    lookupOwn key (putOwn key v props) = some v := by
  induction props with
  | nil => simp [putOwn, lookupOwn]
  | cons hd tl ih =>
    obtain ⟨k, w⟩ := hd
    by_cases h : k = key
    · simp [putOwn, lookupOwn, h]
    · simp [putOwn, lookupOwn, h, ih]

theorem lookupOwn_putOwn_other (key other : String) (v : Val) (props : List (String × Val))
    (hne : other ≠ key) : lookupOwn key (putOwn other v props) = lookupOwn key props := by
  induction props with
  | nil => simp [putOwn, lookupOwn, hne]
  | cons hd tl ih =>
    obtain ⟨k, w⟩ := hd
    by_cases h : k = other
    · subst h
      simp [putOwn, lookupOwn, hne]
    · by_cases hk : k = key
      · subst hk
        simp [putOwn, lookupOwn, h]
      · simp [putOwn, lookupOwn, h, hk, ih]

theorem lookupOwn_writeProp_self (key : String) (v : Val) (props : List (String × Val))
    (hkey : key ≠ "__proto__") : lookupOwn key (writeProp props key v) = some v := by
  simp [writeProp, hkey, lookupOwn_putOwn_self]

theorem lookupOwn_writeProp_other (key other : String) (v : Val) (props : List (String × Val))
    (hne : other ≠ key) : lookupOwn key (writeProp props other v) = lookupOwn key props := by
  unfold writeProp
  split
  · rfl
  · exact lookupOwn_putOwn_other key other v props hne

theorem mem_uniq (k : String) (l : List String) : k ∈ uniq l ↔ k ∈ l := by
  induction l with
  | nil => simp [uniq]
  | cons hd tl ih =>
    by_cases h : k = hd
    · simp [uniq, h]
    · simp [uniq, h, List.mem_filter, ih]

theorem uniq_nodup (l : List String) : (uniq l).Nodup := by
  induction l with
  | nil => simp [uniq]
  | cons hd tl ih =>
    simp only [uniq, List.nodup_cons, List.mem_filter, decide_eq_true_eq, ne_eq, not_true_eq_false,
      and_false, not_false_eq_true, true_and]
    exact ih.filter _

/-- One round of the loop of `checkObjState`: what the object of changes is
after the round for `key`. -/
theorem forEachKey_step (recurse : Val → Val → DiffResult) (original updated : Val)
    (key : String) (rest : List String) (changes : List (String × Val)) (r : Val)
    (h : forEachKey recurse original updated (key :: rest) changes = .ok r) :
    ∃ changes1, forEachKey recurse original updated rest changes1 = .ok r ∧
      (((readProp original key).isObject && (readProp updated key).isObject) = true →
        ∃ nested, recurse (readProp original key) (readProp updated key) = .ok nested ∧
          changes1 = if (ownKeys nested).length > 0 then writeProp changes key nested
            else changes) ∧
      (((readProp original key).isObject && (readProp updated key).isObject) = false →
        changes1 = if strictEq (readProp original key) (readProp updated key) = false
          then writeProp changes key (readProp updated key) else changes) := by
  rw [forEachKey] at h
  by_cases hb : ((readProp original key).isObject && (readProp updated key).isObject) = true
  · simp only [hb, if_true] at h
    cases hr : recurse (readProp original key) (readProp updated key) with
    | outOfFuel => simp [hr] at h
    | notObject => simp [hr] at h
    | ok nested =>
      simp only [hr] at h
      by_cases hlen : (ownKeys nested).length > 0
      · simp only [hlen, if_true] at h
        exact ⟨_, h, fun _ => ⟨nested, rfl, by simp [hlen]⟩, fun hf => by simp [hb] at hf⟩
      · simp only [hlen, if_false] at h
        exact ⟨_, h, fun _ => ⟨nested, rfl, by simp [hlen]⟩, fun hf => by simp [hb] at hf⟩
  · have hbf : ((readProp original key).isObject && (readProp updated key).isObject) = false := by
      simpa using hb
    simp only [hbf, Bool.false_eq_true, if_false] at h
    by_cases hs : strictEq (readProp original key) (readProp updated key) = false
    · simp only [hs, if_true] at h
      exact ⟨_, h, fun ht => by simp [hbf] at ht, fun _ => by simp [hs]⟩
    · simp only [hs, if_false] at h
      exact ⟨_, h, fun ht => by simp [hbf] at ht, fun _ => by simp [hs]⟩

/-- The loop yields a plain object. -/
theorem forEachKey_obj (recurse : Val → Val → DiffResult) (original updated : Val) :
    ∀ (keys : List String) (changes : List (String × Val)) (r : Val),
      forEachKey recurse original updated keys changes = .ok r → ∃ res, r = .obj res := by
  intro keys
  induction keys with
  | nil =>
    intro changes r h
    simp only [forEachKey, DiffResult.ok.injEq] at h
    exact ⟨changes, h.symm⟩
  | cons key rest ih =>
    intro changes r h
    obtain ⟨changes1, h1, _⟩ := forEachKey_step recurse original updated key rest changes r h
    exact ih changes1 r h1

/-- The loop leaves the entry of a key that it does not visit as it is. -/
theorem forEachKey_other (recurse : Val → Val → DiffResult) (original updated : Val)
    (key : String) :
    ∀ (keys : List String) (changes res : List (String × Val)), key ∉ keys →
      forEachKey recurse original updated keys changes = .ok (.obj res) →
      lookupOwn key res = lookupOwn key changes := by
  intro keys
  induction keys with
  | nil =>
    intro changes res _ h
    simp only [forEachKey, DiffResult.ok.injEq, Val.obj.injEq] at h
    rw [h]
  | cons k rest ih =>
    intro changes res hk h
    simp only [List.mem_cons, not_or] at hk
    have hne : k ≠ key := fun e => hk.1 e.symm
    obtain ⟨changes1, h1, hobj, hleaf⟩ :=
      forEachKey_step recurse original updated k rest changes (.obj res) h
    rw [ih changes1 res hk.2 h1]
    by_cases hb : ((readProp original k).isObject && (readProp updated k).isObject) = true
    · obtain ⟨nested, _, hc⟩ := hobj hb
      rw [hc]
      split
      · exact lookupOwn_writeProp_other key k nested changes hne
      · rfl
    · have hc := hleaf (by simpa using hb)
      rw [hc]
      split
      · exact lookupOwn_writeProp_other key k _ changes hne
      · rfl

/-- The entry of the result for a key that the loop visits, `__proto__` apart:
for two objects the nested diff, reported if it has a key; otherwise the new
value, reported if the two values are not strictly equal. -/
theorem forEachKey_lookup (recurse : Val → Val → DiffResult) (original updated : Val)
    (key : String) (hkey : key ≠ "__proto__") :
    ∀ (keys : List String) (changes res : List (String × Val)), key ∈ keys → keys.Nodup →
      forEachKey recurse original updated keys changes = .ok (.obj res) →
      (((readProp original key).isObject && (readProp updated key).isObject) = true →
        ∃ nested, recurse (readProp original key) (readProp updated key) = .ok nested ∧
          lookupOwn key res = if (ownKeys nested).length > 0 then some nested
            else lookupOwn key changes) ∧
      (((readProp original key).isObject && (readProp updated key).isObject) = false →
        lookupOwn key res = if strictEq (readProp original key) (readProp updated key) = false
          then some (readProp updated key) else lookupOwn key changes) := by
  intro keys
  induction keys with
  | nil => intro changes res hk; simp at hk
  | cons k rest ih =>
    intro changes res hk hnd h
    obtain ⟨hnotin, hnd1⟩ := List.nodup_cons.mp hnd
    obtain ⟨changes1, h1, hobj, hleaf⟩ :=
      forEachKey_step recurse original updated k rest changes (.obj res) h
    by_cases hkk : key = k
    · subst hkk
      have hres := forEachKey_other recurse original updated key rest changes1 res hnotin h1
      constructor
      · intro hb
        obtain ⟨nested, hn, hc⟩ := hobj hb
        refine ⟨nested, hn, ?_⟩
        rw [hres, hc]
        split
        · exact lookupOwn_writeProp_self key nested changes hkey
        · rfl
      · intro hb
        rw [hres, hleaf hb]
        split
        · exact lookupOwn_writeProp_self key _ changes hkey
        · rfl
    · have hmem : key ∈ rest := by
        rcases List.mem_cons.mp hk with h0 | h0
        · exact absurd h0 hkk
        · exact h0
      have hne : k ≠ key := fun e => hkk e.symm
      have hsame : lookupOwn key changes1 = lookupOwn key changes := by
        by_cases hb : ((readProp original k).isObject && (readProp updated k).isObject) = true
        · obtain ⟨nested, _, hc⟩ := hobj hb
          rw [hc]
          split
          · exact lookupOwn_writeProp_other key k nested changes hne
          · rfl
        · rw [hleaf (by simpa using hb)]
          split
          · exact lookupOwn_writeProp_other key k _ changes hne
          · rfl
      have := ih changes1 res hmem hnd1 h1
      rw [hsame] at this
      exact this

theorem objectMember_depth (key : String) : (objectMember key).depth = 0 := by
  unfold objectMember
  split <;> rfl

theorem inheritedMember_depth (p : Proto) (key : String) : (inheritedMember p key).depth = 0 := by
  cases p with
  | object => exact objectMember_depth key
  | array =>
    simp only [inheritedMember]
    split
    · rfl
    · exact objectMember_depth key
  | date =>
    simp only [inheritedMember]
    split
    · rfl
    · exact objectMember_depth key

theorem lookupOwn_depth (key : String) (x : Val) :
    ∀ props : List (String × Val), lookupOwn key props = some x → x.depth ≤ depthProps props := by
  intro props
  induction props with
  | nil => intro h; simp [lookupOwn] at h
  | cons hd tl ih =>
    obtain ⟨k, w⟩ := hd
    intro h
    by_cases hk : k = key
    · simp only [lookupOwn, hk, if_true, Option.some.injEq] at h
      subst h
      simp [depthProps]
    · simp only [lookupOwn, hk, if_false] at h
      have := ih h
      simp only [depthProps]
      omega

theorem elementAt_depth (key : String) (x : Val) :
    ∀ (xs : List Val) (i : Nat), elementAt key i xs = some x → x.depth ≤ depthElems xs := by
  intro xs
  induction xs with
  | nil => intro i h; simp [elementAt] at h
  | cons hd tl ih =>
    intro i h
    by_cases hk : key = indexKey i
    · simp only [elementAt, hk, if_true, Option.some.injEq] at h
      subst h
      simp [depthElems]
    · simp only [elementAt, hk, if_false] at h
      have := ih (i + 1) h
      simp only [depthElems]
      omega

/-- A property read on an object gives a value of smaller depth. -/
theorem readProp_depth (v : Val) (key : String) (hv : v.isObject = true) :
    (readProp v key).depth < v.depth := by
  cases v with
  | obj props =>
    simp only [readProp]
    cases h : lookupOwn key props with
    | some x =>
      have := lookupOwn_depth key x props h
      simp only [Val.depth]
      omega
    | none =>
      simp only [Val.depth]
      by_cases hk : key = "__proto__"
      · rw [if_pos hk]
        simp only [Val.depth]
        omega
      · rw [if_neg hk, inheritedMember_depth]
        omega
  | arr xs =>
    simp only [readProp]
    cases h : elementAt key 0 xs with
    | some x =>
      have := elementAt_depth key x xs 0 h
      simp only [Val.depth]
      omega
    | none =>
      simp only [Val.depth]
      by_cases hl : key = "length"
      · rw [if_pos hl]
        simp only [Val.depth]
        omega
      · by_cases hk : key = "__proto__"
        · rw [if_neg hl, if_pos hk]
          simp only [Val.depth]
          omega
        · rw [if_neg hl, if_neg hk, inheritedMember_depth]
          omega
  | date ms =>
    simp only [readProp, Val.depth]
    by_cases hk : key = "__proto__"
    · rw [if_pos hk]
      simp only [Val.depth]
      omega
    · rw [if_neg hk, inheritedMember_depth]
      omega
  | proto p =>
    simp only [readProp]
    by_cases hk : key = "__proto__"
    · rw [if_pos hk]
      cases p <;> simp [Val.depth]
    · by_cases hl : key = "length" ∧ p = .array
      · rw [if_neg hk, if_pos hl]
        obtain ⟨_, hp⟩ := hl
        subst hp
        simp [Val.depth]
      · rw [if_neg hk, if_neg hl, inheritedMember_depth]
        cases p <;> simp [Val.depth]
  | undefined => simp [Val.isObject] at hv
  | null => simp [Val.isObject] at hv
  | bool b => simp [Val.isObject] at hv
  | num n => simp [Val.isObject] at hv
  | nan => simp [Val.isObject] at hv
  | str s => simp [Val.isObject] at hv
  | fn name => simp [Val.isObject] at hv

/-- The loop ends normally when every recursive call that it makes does. -/
theorem forEachKey_returns (recurse : Val → Val → DiffResult) (original updated : Val)
    (hrec : ∀ key, ((readProp original key).isObject && (readProp updated key).isObject) = true →
      ∃ nested, recurse (readProp original key) (readProp updated key) = .ok nested) :
    ∀ (keys : List String) (changes : List (String × Val)),
      ∃ res, forEachKey recurse original updated keys changes = .ok (.obj res) := by
  intro keys
  induction keys with
  | nil => intro changes; exact ⟨changes, rfl⟩
  | cons key rest ih =>
    intro changes
    rw [forEachKey]
    by_cases hb : ((readProp original key).isObject && (readProp updated key).isObject) = true
    · obtain ⟨nested, hn⟩ := hrec key hb
      simp only [hb, if_true, hn]
      split
      · exact ih _
      · exact ih _
    · have hbf : ((readProp original key).isObject && (readProp updated key).isObject) = false := by
        simpa using hb
      simp only [hbf, Bool.false_eq_true, if_false]
      split
      · exact ih _
      · exact ih _

/-- With fuel above the depth of `original`, `checkObjState` on two objects
returns an object of changes. -/
theorem checkObjState_returns :
    ∀ (fuel : Nat) (original updated : Val), original.isObject = true →
      updated.isObject = true → original.depth < fuel →
      ∃ res, checkObjState fuel original updated = .ok (.obj res) := by
  intro fuel
  induction fuel with
  | zero => intro original updated _ _ h; omega
  | succ fuel ih =>
    intro original updated ho hu hd
    rw [checkObjState]
    simp only [ho, hu, Bool.and_self, if_true]
    apply forEachKey_returns
    intro key hb
    simp only [Bool.and_eq_true] at hb
    have hlt := readProp_depth original key ho
    obtain ⟨res, hres⟩ := ih (readProp original key) (readProp updated key) hb.1 hb.2 (by omega)
    exact ⟨_, hres⟩

theorem objectMember_noNaN (key : String) : (objectMember key).noNaN = true := by
  unfold objectMember
  split <;> rfl

theorem inheritedMember_noNaN (p : Proto) (key : String) :
    (inheritedMember p key).noNaN = true := by
  cases p with
  | object => exact objectMember_noNaN key
  | array =>
    simp only [inheritedMember]
    split
    · rfl
    · exact objectMember_noNaN key
  | date =>
    simp only [inheritedMember]
    split
    · rfl
    · exact objectMember_noNaN key

theorem lookupOwn_noNaN (key : String) (x : Val) :
    ∀ props : List (String × Val), noNaNProps props = true → lookupOwn key props = some x →
      x.noNaN = true := by
  intro props
  induction props with
  | nil => intro _ h; simp [lookupOwn] at h
  | cons hd tl ih =>
    obtain ⟨k, w⟩ := hd
    intro hp h
    simp only [noNaNProps, Bool.and_eq_true] at hp
    by_cases hk : k = key
    · simp only [lookupOwn, hk, if_true, Option.some.injEq] at h
      subst h
      exact hp.1
    · simp only [lookupOwn, hk, if_false] at h
      exact ih hp.2 h

theorem elementAt_noNaN (key : String) (x : Val) :
    ∀ (xs : List Val) (i : Nat), noNaNElems xs = true → elementAt key i xs = some x →
      x.noNaN = true := by
  intro xs
  induction xs with
  | nil => intro i _ h; simp [elementAt] at h
  | cons hd tl ih =>
    intro i hp h
    simp only [noNaNElems, Bool.and_eq_true] at hp
    by_cases hk : key = indexKey i
    · simp only [elementAt, hk, if_true, Option.some.injEq] at h
      subst h
      exact hp.1
    · simp only [elementAt, hk, if_false] at h
      exact ih (i + 1) hp.2 h

/-- A property read on a value without `NaN` gives a value without `NaN`. -/
theorem readProp_noNaN (v : Val) (key : String) (hv : v.noNaN = true) :
    (readProp v key).noNaN = true := by
  cases v with
  | obj props =>
    simp only [readProp]
    cases h : lookupOwn key props with
    | some x => exact lookupOwn_noNaN key x props (by simpa [Val.noNaN] using hv) h
    | none =>
      simp only []
      split
      · rfl
      · exact inheritedMember_noNaN _ _
  | arr xs =>
    simp only [readProp]
    cases h : elementAt key 0 xs with
    | some x => exact elementAt_noNaN key x xs 0 (by simpa [Val.noNaN] using hv) h
    | none =>
      simp only []
      split
      · rfl
      · split
        · rfl
        · exact inheritedMember_noNaN _ _
  | date ms =>
    simp only [readProp]
    split
    · rfl
    · exact inheritedMember_noNaN _ _
  | proto p =>
    simp only [readProp]
    split
    · cases p <;> rfl
    · split
      · rfl
      · exact inheritedMember_noNaN _ _
  | undefined => rfl
  | null => rfl
  | bool b => rfl
  | num n => rfl
  | nan => rfl
  | str s => rfl
  | fn name => rfl

theorem strictEq_self (v : Val) (hn : v.noNaN = true) (ho : v.isObject = false) :
    strictEq v v = true := by
  cases v <;> simp_all [strictEq, Val.noNaN, Val.isObject]

theorem strictEq_undefined (v : Val) (hv : v ≠ .undefined) : strictEq v .undefined = false := by
  cases v <;> simp_all [strictEq]

/-- The loop on `x` and `x`, `x` without `NaN`, reports nothing when the
recursive calls report nothing. -/
theorem forEachKey_self (recurse : Val → Val → DiffResult) (x : Val) (hx : x.noNaN = true)
    (hrec : ∀ y r, y.noNaN = true → recurse y y = .ok r → r = .obj []) :
    ∀ (keys : List String) (r : Val), forEachKey recurse x x keys [] = .ok r → r = .obj [] := by
  intro keys
  induction keys with
  | nil =>
    intro r h
    simp only [forEachKey, DiffResult.ok.injEq] at h
    exact h.symm
  | cons key rest ih =>
    intro r h
    obtain ⟨changes1, h1, hobj, hleaf⟩ := forEachKey_step recurse x x key rest [] r h
    have hn := readProp_noNaN x key hx
    have hc : changes1 = [] := by
      by_cases hb : ((readProp x key).isObject && (readProp x key).isObject) = true
      · obtain ⟨nested, hnested, hcc⟩ := hobj hb
        have := hrec _ _ hn hnested
        subst this
        simpa [ownKeys] using hcc
      · have hbf : ((readProp x key).isObject && (readProp x key).isObject) = false := by
          simpa using hb
        have ho : (readProp x key).isObject = false := by simpa using hbf
        have hcc := hleaf hbf
        simpa [strictEq_self _ hn ho] using hcc
    rw [hc] at h1
    exact ih r h1

/-- What `checkObjState` returns is a plain object. -/
theorem checkObjState_obj (fuel : Nat) (original updated r : Val)
    (h : checkObjState fuel original updated = .ok r) : ∃ res, r = .obj res := by
  cases fuel with
  | zero => simp [checkObjState] at h
  | succ fuel =>
    rw [checkObjState] at h
    by_cases hb : (original.isObject && updated.isObject) = true
    · rw [if_pos hb] at h
      exact forEachKey_obj _ _ _ _ _ _ h
    · rw [if_neg hb] at h
      cases h

/-- On a value without `NaN`, whatever `checkObjState(x, x)` returns is the
empty object. -/
theorem checkObjState_self_of_noNaN :
    ∀ (fuel : Nat) (x r : Val), x.noNaN = true → checkObjState fuel x x = .ok r → r = .obj [] := by
  intro fuel
  induction fuel with
  | zero => intro x r _ h; simp [checkObjState] at h
  | succ fuel ih =>
    intro x r hx h
    rw [checkObjState] at h
    by_cases ho : (x.isObject && x.isObject) = true
    · rw [if_pos ho] at h
      exact forEachKey_self (checkObjState fuel) x hx (fun y r hy hr => ih y r hy hr) _ r h
    · rw [if_neg ho] at h
      cases h

/-- With fuel above its depth, `checkObjState(x, x)` on an object without `NaN`
returns the empty object. -/
theorem checkObjState_self_empty (fuel : Nat) (x : Val) (ho : x.isObject = true)
    (hn : x.noNaN = true) (hfuel : x.depth < fuel) :
    checkObjState fuel x x = .ok (.obj []) := by
  obtain ⟨res, hres⟩ := checkObjState_returns fuel x x ho ho hfuel
  have := checkObjState_self_of_noNaN fuel x _ hn hres
  rw [hres, this]

/-- The entry of the result of `checkObjState` for a key of either argument,
`__proto__` apart, with fuel above the depth of `original`. -/
theorem checkObjState_key (fuel : Nat) (original updated : Val) (k : String)
    (ho : original.isObject = true) (hu : updated.isObject = true)
    (hfuel : original.depth < fuel + 1) (hk : k ∈ allKeys original updated)
    (hproto : k ≠ "__proto__") :
    ∃ res, checkObjState (fuel + 1) original updated = .ok (.obj res) ∧
      (((readProp original k).isObject && (readProp updated k).isObject) = true →
        ∃ nested, checkObjState fuel (readProp original k) (readProp updated k) =
            .ok (.obj nested) ∧
          lookupOwn k res = if nested.isEmpty then none else some (.obj nested)) ∧
      (((readProp original k).isObject && (readProp updated k).isObject) = false →
        lookupOwn k res = if strictEq (readProp original k) (readProp updated k) = false
          then some (readProp updated k) else none) := by
  obtain ⟨res, hres⟩ := checkObjState_returns (fuel + 1) original updated ho hu hfuel
  refine ⟨res, hres, ?_⟩
  rw [checkObjState] at hres
  have hboth : (original.isObject && updated.isObject) = true := by simp [ho, hu]
  rw [if_pos hboth] at hres
  obtain ⟨hobj, hleaf⟩ := forEachKey_lookup (checkObjState fuel) original updated k hproto
    (allKeys original updated) [] res hk (uniq_nodup _) hres
  constructor
  · intro hb
    obtain ⟨nested, hn, hl⟩ := hobj hb
    obtain ⟨props, hprops⟩ := checkObjState_obj fuel _ _ nested hn
    subst hprops
    refine ⟨props, hn, ?_⟩
    rw [hl]
    cases props with
    | nil => simp [ownKeys, lookupOwn]
    | cons hd tl => simp [ownKeys]
  · intro hb
    simpa [lookupOwn] using hleaf hb

/-- C14, the code at the failing input: `checkObjState(x, x)` for
`x = { a: NaN }` reports the key `a`, because `NaN !== NaN`. -/
theorem checkObjState_self_reports_nan :
    checkObjState 2 (.obj [("a", .nan)]) (.obj [("a", .nan)]) = .ok (.obj [("a", .nan)]) :=
  rfl

/-- C15 as stated fails. For `{ a: { x: 1, y: 2 }, n: 1 }` and
`{ a: { x: 1, y: 3 }, n: 2 }` the value reported for `a` is the nested diff
`{ y: 3 }`; assigned onto a clone of the original it leaves `{ y: 3 }` under
`a`, not the updated `{ x: 1, y: 3 }`. And for `{ d: Date(1) }` and
`{ d: Date(2) }` nothing is reported, though the two values of `d` differ. -/
theorem checkObjState_nested_value_is_partial :
    checkObjState 3 nestedOriginal nestedUpdated =
        .ok (.obj [("a", .obj [("y", .num 3)]), ("n", .num 2)]) ∧
      readProp (assignKey (cloneObj none nestedOriginal) "a" (.obj [("y", .num 3)])) "a" =
        .obj [("y", .num 3)] ∧
      readProp nestedUpdated "a" = .obj [("x", .num 1), ("y", .num 3)] ∧
      readProp (assignKey (cloneObj none nestedOriginal) "a" (.obj [("y", .num 3)])) "a" ≠
        readProp nestedUpdated "a" ∧
      checkObjState 3 (.obj [("d", .date 1)]) (.obj [("d", .date 2)]) = .ok (.obj []) :=
  ⟨rfl, rfl, rfl,
    (fun h => by
      have h1 : Val.obj [("y", .num 3)] = Val.obj [("x", .num 1), ("y", .num 3)] := h
      simp at h1),
    rfl⟩

/-- C15 as amended: for a key `k` of either argument, `__proto__` apart. When
the two values at `k` are not both objects, a reported value is `updated[k]`,
so that assigning it onto a clone makes the clone's value at `k` equal to
`updated[k]`, and an unreported `k` has strictly equal values. When both
values are objects, the reported value is the nested diff of the two, and `k`
is unreported exactly when that diff is empty. -/
theorem checkObjState_reported_value (fuel : Nat) (original updated : Val) (k : String)
    (ho : original.isObject = true) (hu : updated.isObject = true)
    (hfuel : original.depth < fuel + 1) (hk : k ∈ allKeys original updated)
    (hproto : k ≠ "__proto__") :
    ∃ res, checkObjState (fuel + 1) original updated = .ok (.obj res) ∧
      (((readProp original k).isObject && (readProp updated k).isObject) = false →
        (∀ v, lookupOwn k res = some v →
          v = readProp updated k ∧
            ∀ clone, readProp (assignKey (.obj clone) k v) k = readProp updated k) ∧
        (lookupOwn k res = none →
          strictEq (readProp original k) (readProp updated k) = true)) ∧
      (((readProp original k).isObject && (readProp updated k).isObject) = true →
        ∃ nested, checkObjState fuel (readProp original k) (readProp updated k) =
            .ok (.obj nested) ∧
          lookupOwn k res = if nested.isEmpty then none else some (.obj nested)) := by
  obtain ⟨res, hres, hobj, hleaf⟩ :=
    checkObjState_key fuel original updated k ho hu hfuel hk hproto
  refine ⟨res, hres, ?_, hobj⟩
  intro hb
  have hl := hleaf hb
  constructor
  · intro v hv
    by_cases hs : strictEq (readProp original k) (readProp updated k) = false
    · rw [hl, if_pos hs] at hv
      have hv1 : readProp updated k = v := by simpa using hv
      subst hv1
      refine ⟨rfl, ?_⟩
      intro clone
      simp [assignKey, readProp, lookupOwn_writeProp_self k _ clone hproto]
    · rw [hl, if_neg hs] at hv
      cases hv
  · intro hnone
    by_cases hs : strictEq (readProp original k) (readProp updated k) = false
    · rw [hl, if_pos hs] at hnone
      cases hnone
    · simpa using hs

/-- C15 as amended, on `{ a: { x: 1, y: 2 }, n: 1 }` and
`{ a: { x: 1, y: 3 }, n: 2 }` at the key `n`. -/
theorem checkObjState_reported_value_witness :
    ∃ res, checkObjState (4 + 1) nestedOriginal nestedUpdated = .ok (.obj res) ∧
      (((readProp nestedOriginal "n").isObject && (readProp nestedUpdated "n").isObject) = false →
        (∀ v, lookupOwn "n" res = some v →
          v = readProp nestedUpdated "n" ∧
            ∀ clone, readProp (assignKey (.obj clone) "n" v) "n" = readProp nestedUpdated "n") ∧
        (lookupOwn "n" res = none →
          strictEq (readProp nestedOriginal "n") (readProp nestedUpdated "n") = true)) ∧
      (((readProp nestedOriginal "n").isObject && (readProp nestedUpdated "n").isObject) = true →
        ∃ nested, checkObjState 4 (readProp nestedOriginal "n") (readProp nestedUpdated "n") =
            .ok (.obj nested) ∧
          lookupOwn "n" res = if nested.isEmpty then none else some (.obj nested)) :=
  checkObjState_reported_value 4 nestedOriginal nestedUpdated "n" rfl rfl (by decide)
    (by decide) (by decide)

/-- C16 as stated fails: for `{ a: [1, 2] }` and `{ a: [1, 3] }` the result maps
`a` to the mapping `{ 1: 3 }` of the changed index, not to the array `[1, 3]`;
and for `{ a: [1, 2] }` and another `{ a: [1, 2] }` nothing is reported. -/
theorem checkObjState_recurses_into_arrays :
    checkObjState 3 arrayOriginal arrayUpdated = .ok (.obj [("a", .obj [("1", .num 3)])]) ∧
      readProp arrayUpdated "a" = .arr [.num 1, .num 3] ∧
      Val.obj [("1", .num 3)] ≠ readProp arrayUpdated "a" ∧
      checkObjState 3 arrayOriginal arrayOriginal = .ok (.obj []) :=
  ⟨rfl, rfl,
    (fun h => by
      have h1 : Val.obj [("1", .num 3)] = Val.arr [.num 1, .num 3] := h
      cases h1),
    rfl⟩

/-- C16 as amended: `checkObjState` recurses into arrays as into any object.
For a key `k`, `__proto__` apart, at which both arguments hold arrays, the
result maps `k` to the nested diff of the two arrays, a plain object keyed by
index, when that diff has a key, and does not report `k` when it has none;
this is so in particular for two arrays without `NaN` that agree element by
element. -/
theorem checkObjState_arrays (fuel : Nat) (original updated : Val) (k : String)
    (xs ys : List Val) (ho : original.isObject = true) (hu : updated.isObject = true)
    (hfuel : original.depth < fuel + 1) (hk : k ∈ allKeys original updated)
    (hproto : k ≠ "__proto__") (hx : readProp original k = .arr xs)
    (hy : readProp updated k = .arr ys) :
    ∃ res nested, checkObjState (fuel + 1) original updated = .ok (.obj res) ∧
      checkObjState fuel (.arr xs) (.arr ys) = .ok (.obj nested) ∧
      lookupOwn k res = (if nested.isEmpty then none else some (.obj nested)) ∧
      (xs = ys → (Val.arr xs).noNaN = true → lookupOwn k res = none) := by
  obtain ⟨res, hres, hobj, _⟩ :=
    checkObjState_key fuel original updated k ho hu hfuel hk hproto
  have hb : ((readProp original k).isObject && (readProp updated k).isObject) = true := by
    rw [hx, hy]
    rfl
  obtain ⟨nested, hn, hl⟩ := hobj hb
  rw [hx, hy] at hn
  refine ⟨res, nested, hres, hn, hl, ?_⟩
  intro hxy hnan
  subst hxy
  have := checkObjState_self_of_noNaN fuel (.arr xs) _ hnan hn
  simp only [Val.obj.injEq] at this
  subst this
  simpa using hl

/-- C16 as amended, on `{ a: [1, 2] }` and `{ a: [1, 3] }` at the key `a`. -/
theorem checkObjState_arrays_witness :
    ∃ res nested, checkObjState (5 + 1) arrayOriginal arrayUpdated = .ok (.obj res) ∧
      checkObjState 5 (.arr [.num 1, .num 2]) (.arr [.num 1, .num 3]) = .ok (.obj nested) ∧
      lookupOwn "a" res = (if nested.isEmpty then none else some (.obj nested)) ∧
      (([.num 1, .num 2] : List Val) = [.num 1, .num 3] →
        (Val.arr [.num 1, .num 2]).noNaN = true → lookupOwn "a" res = none) :=
  checkObjState_arrays 5 arrayOriginal arrayUpdated "a" [.num 1, .num 2] [.num 1, .num 3]
    rfl rfl (by decide) (by decide) (by decide) rfl rfl

/-- C17, the code at the failing input: `toString` is an own key of the original
`{ toString: 1 }` with a defined value and no key of the updated `{}`, yet the
value reported for it is not `undefined` but the function that the read
`updated['toString']` finds on `Object.prototype`; likewise for the own key
`constructor`. For the own key `__proto__` of the original (as `JSON.parse`
creates it) nothing is reported at all: the two values read are objects, and
the assignment `changes['__proto__'] = nestedDiff` creates no own key. A key
that no prototype defines, as in `{ a: 1 }` against `{}`, is reported with
`undefined`. -/
theorem checkObjState_deleted_key_inherited :
    checkObjState 2 (.obj [("toString", .num 1)]) (.obj []) =
        .ok (.obj [("toString", .fn "Object.prototype.toString")]) ∧
      checkObjState 2 (.obj [("constructor", .str "x")]) (.obj []) =
        .ok (.obj [("constructor", .fn "Object.prototype.constructor")]) ∧
      checkObjState 4 (.obj [("__proto__", .obj [("a", .num 1)])]) (.obj []) = .ok (.obj []) ∧
      checkObjState 2 (.obj [("a", .num 1)]) (.obj []) = .ok (.obj [("a", .undefined)]) :=
  ⟨rfl, rfl, rfl, rfl⟩

/-- A key of `original`, `__proto__` apart, that holds a defined value and under
which a read of `updated` finds nothing, neither an own property nor an
inherited one, is reported with the value `undefined`. -/
theorem checkObjState_deleted_key (fuel : Nat) (original updated : Val) (k : String)
    (ho : original.isObject = true) (hu : updated.isObject = true)
    (hfuel : original.depth < fuel + 1) (hk : k ∈ ownKeys original)
    (hproto : k ≠ "__proto__") (hdef : readProp original k ≠ .undefined)
    (habsent : readProp updated k = .undefined) :
    ∃ res, checkObjState (fuel + 1) original updated = .ok (.obj res) ∧
      lookupOwn k res = some .undefined := by
  have hk1 : k ∈ allKeys original updated := by
    unfold allKeys
    rw [mem_uniq]
    exact List.mem_append_left _ hk
  obtain ⟨res, hres, _, hleaf⟩ :=
    checkObjState_key fuel original updated k ho hu hfuel hk1 hproto
  refine ⟨res, hres, ?_⟩
  have hb : ((readProp original k).isObject && (readProp updated k).isObject) = false := by
    rw [habsent]
    simp [Val.isObject]
  rw [hleaf hb, habsent, strictEq_undefined _ hdef]
  rfl

theorem inheritedMember_of_not_inMethods (p : Proto) (key : String)
    (h : inMethods p key = false) : inheritedMember p key = .undefined := by
  cases p <;> simp_all [inMethods, inheritedMember, objectMember]

/-- A read of a property that an object does not have gives `undefined`, and
`__proto__` is a property of every object. -/
theorem readProp_of_not_hasProperty (v : Val) (key : String) (hv : v.isObject = true)
    (h : hasProperty v key = false) : readProp v key = .undefined ∧ key ≠ "__proto__" := by
  cases v with
  | obj props =>
    simp only [hasProperty, Bool.or_eq_false_iff, decide_eq_false_iff_not] at h
    obtain ⟨⟨hown, hk⟩, hm⟩ := h
    have hnone : lookupOwn key props = none := by
      cases hl : lookupOwn key props with
      | none => rfl
      | some x => simp [hl] at hown
    exact ⟨by simp [readProp, hnone, hk, inheritedMember_of_not_inMethods _ _ hm], hk⟩
  | arr xs =>
    simp only [hasProperty, Bool.or_eq_false_iff, decide_eq_false_iff_not] at h
    obtain ⟨⟨⟨hown, hl⟩, hk⟩, hm⟩ := h
    have hnone : elementAt key 0 xs = none := by
      cases he : elementAt key 0 xs with
      | none => rfl
      | some x => simp [he] at hown
    exact ⟨by simp [readProp, hnone, hl, hk, inheritedMember_of_not_inMethods _ _ hm], hk⟩
  | date ms =>
    simp only [hasProperty, Bool.or_eq_false_iff, decide_eq_false_iff_not] at h
    obtain ⟨hk, hm⟩ := h
    exact ⟨by simp [readProp, hk, inheritedMember_of_not_inMethods _ _ hm], hk⟩
  | proto p =>
    simp only [hasProperty, Bool.or_eq_false_iff, decide_eq_false_iff_not,
      Bool.and_eq_false_iff] at h
    obtain ⟨⟨hk, hl⟩, hm⟩ := h
    refine ⟨?_, hk⟩
    have hl1 : ¬(key = "length" ∧ p = .array) := by
      rintro ⟨h1, h2⟩
      rcases hl with hl | hl <;> simp_all
    simp only [readProp]
    rw [if_neg hk, if_neg hl1]
    exact inheritedMember_of_not_inMethods _ _ hm
  | undefined => simp [Val.isObject] at hv
  | null => simp [Val.isObject] at hv
  | bool b => simp [Val.isObject] at hv
  | num n => simp [Val.isObject] at hv
  | nan => simp [Val.isObject] at hv
  | str s => simp [Val.isObject] at hv
  | fn name => simp [Val.isObject] at hv

/-- Where a deleted key is reported as intended: for objects `original` and
`updated` and a key `k` that is an own key of `original` with a defined value
and that `updated` neither owns nor inherits (`k in updated` is false),
`checkObjState` returns, with fuel above the depth of `original`, a result that
has `k` as a key with the value `undefined`, whether `original[k]` is a leaf or
an object. -/
theorem checkObjState_reports_absent_key (fuel : Nat) (original updated : Val) (k : String)
    (ho : original.isObject = true) (hu : updated.isObject = true)
    (hfuel : original.depth < fuel + 1) (hk : k ∈ ownKeys original)
    (hdef : readProp original k ≠ .undefined) (habsent : hasProperty updated k = false) :
    ∃ res, checkObjState (fuel + 1) original updated = .ok (.obj res) ∧
      lookupOwn k res = some .undefined := by
  obtain ⟨hread, hproto⟩ := readProp_of_not_hasProperty updated k hu habsent
  exact checkObjState_deleted_key fuel original updated k ho hu hfuel hk hproto hdef hread

/-- The deleted key `a` of `{ a: 1, b: { x: 1 } }` against `{}`, which no
prototype defines, is reported with `undefined`. -/
theorem checkObjState_reports_absent_key_witness :
    ∃ res, checkObjState (4 + 1) (.obj [("a", .num 1), ("b", .obj [("x", .num 1)])]) (.obj []) =
        .ok (.obj res) ∧
      lookupOwn "a" res = some .undefined :=
  checkObjState_reports_absent_key 4 (.obj [("a", .num 1), ("b", .obj [("x", .num 1)])])
    (.obj []) "a" rfl rfl (by decide) (by decide)
    (fun h => by
      have h1 : Val.num 1 = Val.undefined := h
      cases h1)
    rfl

end MyJsUtils
